import Mathlib

set_option maxHeartbeats 1000000

/-!
Verification of the pytest-codingagents core: the structured-output
extractor (validation/judge.py), transcript serialization
(validation/judge.py and validation/context.py), the judge-result
construction and threshold assertions, the result model
(copilot/result.py), and the event-mapper / runner failure semantics
(copilot/runner.py; the mapper itself is modelled from the spec since
copilot/events.py is not part of the source tree).

Python strings are modelled as lists of characters (`Str`), Python dicts
as insertion-ordered association lists, fallible Python code as
`Option` / `Except` values.
-/

/-- Python strings modelled as lists of unicode characters. -/
abbrev Str := List Char

/-- Shorthand turning a Lean string literal into the `Str` model. -/
def lit (s : String) : Str := s.data

/-- Characters Python `str.strip()` removes and the regex `\s` class matches
(`str.isspace` set: ASCII whitespace, the C0 separators, and the unicode
space characters).  Non-ASCII members are included for fidelity although
no claim exercises them. -/
def isPyWs (c : Char) : Bool :=
  let n := c.toNat
  (0x09 ≤ n && n ≤ 0x0d) || n == 0x20 || (0x1c ≤ n && n ≤ 0x1f) ||
  n == 0x85 || n == 0xa0 || n == 0x1680 || (0x2000 ≤ n && n ≤ 0x200a) ||
  n == 0x2028 || n == 0x2029 || n == 0x202f || n == 0x205f || n == 0x3000

/-- Whitespace skipped by Python `json` between tokens (json.decoder
WHITESPACE: space, tab, newline, carriage return). -/
def isJsonWs (c : Char) : Bool :=
  c.toNat == 32 || c.toNat == 9 || c.toNat == 10 || c.toNat == 13

/-- Word characters of the regex `\w` class.  Python also counts non-ASCII
unicode letters; the claims only exercise ASCII keys, and non-ASCII
characters are treated as non-word here. -/
def isWordChar (c : Char) : Bool :=
  let n := c.toNat
  (97 ≤ n && n ≤ 122) || (65 ≤ n && n ≤ 90) || (48 ≤ n && n ≤ 57) || n == 95

/-- Decimal digit test of the regex `\d` class (ASCII). -/
def isDigitChar (c : Char) : Bool := 48 ≤ c.toNat && c.toNat ≤ 57

/-- Python `str.lstrip()`. -/
def ltrim (t : Str) : Str := t.dropWhile isPyWs

/-- Python `str.rstrip()`. -/
def rtrim (t : Str) : Str := (t.reverse.dropWhile isPyWs).reverse

/-- Python `str.strip()`. -/
def pyStrip (t : Str) : Str := rtrim (ltrim t)

/-- Python `text.find(ch)`: index of the first occurrence, `none` for -1. -/
def findChar (t : Str) (ch : Char) : Option Nat :=
  t.findIdx? (· == ch)

/-- Python `text.rfind(ch)`: index of the last occurrence, `none` for -1. -/
def rfindChar (t : Str) (ch : Char) : Option Nat :=
  match (t.reverse.findIdx? (· == ch)) with
  | none => none
  | some i => some (t.length - 1 - i)

/-- Python slice `t[a:b]` (for 0 ≤ a ≤ b). -/
def pySlice (t : Str) (a b : Nat) : Str := (t.drop a).take (b - a)

/-!
JSON value model.  Python `json.loads` produces dicts, lists, strings,
ints, floats, booleans and None; dicts are modelled as insertion-ordered
association lists.  Non-integer numeric literals are kept as their lexeme
(`floatLit`): the claims never compare float values, so IEEE semantics
are not modelled.
-/

inductive Json where
  | null : Json
  | bool (b : Bool) : Json
  | int (n : Int) : Json
  | floatLit (s : Str) : Json
  | str (s : Str) : Json
  | arr (xs : List Json) : Json
  | obj (ms : List (Str × Json)) : Json

/-- Python `dict` assignment `d[k] = v`: updates an existing key in place
(keeping its position) or appends a new entry. -/
def dictInsert (d : List (Str × Json)) (k : Str) (v : Json) : List (Str × Json) :=
  match d with
  | [] => [(k, v)]
  | (k0, v0) :: rest => if k0 = k then (k0, v) :: rest else (k0, v0) :: dictInsert rest k v

/-- Python `k in d` on a dict. -/
def dictHasKey (d : List (Str × Json)) (k : Str) : Bool :=
  d.any (fun p => p.1 = k)

/-- Python `d.get(k, default)` on a dict. -/
def dictGet (d : List (Str × Json)) (k : Str) (dflt : Json) : Json :=
  match d.find? (fun p => p.1 = k) with
  | some p => p.2
  | none => dflt

/-- Hexadecimal digit value, if any (for `\uXXXX` escapes). -/
def hexDigitVal (c : Char) : Option Nat :=
  let n := c.toNat
  if 48 ≤ n && n ≤ 57 then some (n - 48)
  else if 97 ≤ n && n ≤ 102 then some (n - 87)
  else if 65 ≤ n && n ≤ 70 then some (n - 55)
  else none

/-- Character from a code point.  Python strings can hold lone surrogates
(which `json` produces for unpaired `\uXXXX` escapes); Lean characters
cannot, so those map to U+FFFD.  No claim exercises lone surrogates. -/
def codeChar (n : Nat) : Char :=
  if n.isValidChar then Char.ofNat n else '�'

/-- Lookahead after a high-surrogate `\uXXXX` escape (value `n`): if a
low-surrogate escape follows, combine the pair into one character and
consume it; otherwise keep the lone value and consume nothing
(json.decoder `py_scanstring` surrogate handling). -/
def surrogatePair (n : Nat) (r : Str) : Char × Str :=
  if r.take 2 = ['\\', 'u'] then
    match r.drop 2 with
    | a2 :: b2 :: c2 :: d2 :: r2 =>
      match hexDigitVal a2, hexDigitVal b2, hexDigitVal c2, hexDigitVal d2 with
      | some ha2, some hb2, some hc2, some hd2 =>
        let m := ((ha2 * 16 + hb2) * 16 + hc2) * 16 + hd2
        if 0xdc00 ≤ m ∧ m ≤ 0xdfff then
          (codeChar (0x10000 + (n - 0xd800) * 0x400 + (m - 0xdc00)), r2)
        else (codeChar n, r)
      | _, _, _, _ => (codeChar n, r)
    | _ => (codeChar n, r)
  else (codeChar n, r)

/-- Body of a JSON string literal (see `parseStringBody`); `fuel` bounds
the recursion (every step consumes at least one character, so one unit
of fuel per input character suffices) and keeps the recursion structural
so that the definition evaluates by kernel reduction. -/
def parseStringBodyF (fuel : Nat) (cs : Str) : Option (Str × Str) :=
  match fuel with
  | 0 => none
  | fuel + 1 =>
    match cs with
    | [] => none
    | c :: rest =>
      if c = '\"' then some ([], rest)
      else if c = '\\' then
        match rest with
        | [] => none
        | e :: r =>
          if e = '\"' then (parseStringBodyF fuel r).map (fun p => ('\"' :: p.1, p.2))
          else if e = '\\' then (parseStringBodyF fuel r).map (fun p => ('\\' :: p.1, p.2))
          else if e = '/' then (parseStringBodyF fuel r).map (fun p => ('/' :: p.1, p.2))
          else if e = 'b' then (parseStringBodyF fuel r).map (fun p => (codeChar 8 :: p.1, p.2))
          else if e = 'f' then (parseStringBodyF fuel r).map (fun p => (codeChar 12 :: p.1, p.2))
          else if e = 'n' then (parseStringBodyF fuel r).map (fun p => ('\n' :: p.1, p.2))
          else if e = 'r' then (parseStringBodyF fuel r).map (fun p => ('\r' :: p.1, p.2))
          else if e = 't' then (parseStringBodyF fuel r).map (fun p => ('\t' :: p.1, p.2))
          else if e = 'u' then
            match r with
            | a :: b :: c2 :: d :: r2 =>
              match hexDigitVal a, hexDigitVal b, hexDigitVal c2, hexDigitVal d with
              | some ha, some hb, some hc, some hd =>
                let n := ((ha * 16 + hb) * 16 + hc) * 16 + hd
                if 0xd800 ≤ n ∧ n ≤ 0xdbff then
                  (parseStringBodyF fuel (surrogatePair n r2).2).map
                    (fun p => ((surrogatePair n r2).1 :: p.1, p.2))
                else (parseStringBodyF fuel r2).map (fun p => (codeChar n :: p.1, p.2))
              | _, _, _, _ => none
            | _ => none
          else none
      else if c.toNat < 0x20 then none
      else (parseStringBodyF fuel rest).map (fun p => (c :: p.1, p.2))

/-- Body of a JSON string literal, after the opening quote: returns the
decoded characters and the remainder after the closing quote
(json.decoder `py_scanstring`, strict mode).  A high surrogate escape
followed by a low surrogate escape is combined into one character; an
unpaired one stays alone (modelled as U+FFFD, see `codeChar`). -/
def parseStringBody (cs : Str) : Option (Str × Str) :=
  parseStringBodyF (cs.length + 1) cs

/-- Value of a run of decimal digit characters. -/
def digitsToNat (ds : Str) : Nat := ds.foldl (fun a c => a * 10 + (c.toNat - '0'.toNat)) 0

/-- Body of the number regex after the optional sign: integer part
`0|[1-9]\d*`, optional fraction `\.\d+`, optional exponent
`[eE][-+]?\d+`; an integer lexeme yields a Python int, anything else a
float lexeme. -/
def parseNumBody (neg : Bool) (cs1 : Str) : Option (Json × Str) :=
  let intDs := if cs1.take 1 = ['0'] then ['0'] else cs1.takeWhile isDigitChar
  if intDs.isEmpty then none
  else
    let r1 := cs1.drop intDs.length
    let frac :=
      if r1.take 1 = ['.'] then
        if ((r1.drop 1).takeWhile isDigitChar).isEmpty then []
        else '.' :: (r1.drop 1).takeWhile isDigitChar
      else []
    let r2 := r1.drop frac.length
    let expPart :=
      if r2.take 1 = ['e'] ∨ r2.take 1 = ['E'] then
        let sgnLen := if (r2.drop 1).take 1 = ['+'] ∨ (r2.drop 1).take 1 = ['-'] then 1 else 0
        let ds := (r2.drop (1 + sgnLen)).takeWhile isDigitChar
        if ds.isEmpty then [] else r2.take (1 + sgnLen) ++ ds
      else []
    let r3 := r2.drop expPart.length
    if frac.isEmpty ∧ expPart.isEmpty then
      some (Json.int (if neg then -(Int.ofNat (digitsToNat intDs)) else Int.ofNat (digitsToNat intDs)), r3)
    else
      some (Json.floatLit ((if neg then ['-'] else []) ++ intDs ++ frac ++ expPart), r3)

/-- Number token at the head of the input, per json.scanner: the regex
`(-?(?:0|[1-9]\d*))(\.\d+)?([eE][-+]?\d+)?`, plus the `NaN`,
`Infinity` and `-Infinity` constants.  An integer literal becomes a
Python int; anything with a fraction or exponent becomes a float, kept
as its lexeme (`floatLit`) since no claim compares float values. -/
def parseNumberTok (cs : Str) : Option (Json × Str) :=
  if cs.take 3 = lit "NaN" then some (Json.floatLit (lit "NaN"), cs.drop 3)
  else if cs.take 8 = lit "Infinity" then some (Json.floatLit (lit "Infinity"), cs.drop 8)
  else if cs.take 9 = lit "-Infinity" then some (Json.floatLit (lit "-Infinity"), cs.drop 9)
  else if cs.take 1 = ['-'] then parseNumBody true (cs.drop 1)
  else parseNumBody false cs

mutual

/-- One JSON value at the head of the input (json.scanner `scan_once`:
dispatch on the next character / literal prefix, no leading-whitespace
skip).  `fuel` bounds recursion depth; callers pass more fuel than the
input length, which always suffices because every recursive step
consumes input. -/
def parseValue (fuel : Nat) (cs : Str) : Option (Json × Str) :=
  match fuel with
  | 0 => none
  | fuel + 1 =>
    if cs.take 1 = ['\x7b'] then parseObjBody fuel (cs.drop 1)
    else if cs.take 1 = ['['] then parseArrBody fuel (cs.drop 1)
    else if cs.take 1 = ['\"'] then (parseStringBody (cs.drop 1)).map (fun p => (Json.str p.1, p.2))
    else if cs.take 4 = lit "true" then some (Json.bool true, cs.drop 4)
    else if cs.take 5 = lit "false" then some (Json.bool false, cs.drop 5)
    else if cs.take 4 = lit "null" then some (Json.null, cs.drop 4)
    else parseNumberTok cs

/-- Object body after the opening brace (json.decoder `JSONObject`). -/
def parseObjBody (fuel : Nat) (cs : Str) : Option (Json × Str) :=
  match fuel with
  | 0 => none
  | fuel + 1 =>
    let cs1 := cs.dropWhile isJsonWs
    if cs1.take 1 = ['\x7d'] then some (Json.obj [], cs1.drop 1)
    else parseMembers fuel cs1 []

/-- Members of an object, starting at a key; the accumulated dict uses
Python dict assignment (duplicate keys: last value wins, first position
kept). -/
def parseMembers (fuel : Nat) (cs : Str) (acc : List (Str × Json)) : Option (Json × Str) :=
  match fuel with
  | 0 => none
  | fuel + 1 =>
    if cs.take 1 = ['\"'] then
      match parseStringBody (cs.drop 1) with
      | none => none
      | some (k, r1) =>
        let r1w := r1.dropWhile isJsonWs
        if r1w.take 1 = [':'] then
          match parseValue fuel ((r1w.drop 1).dropWhile isJsonWs) with
          | none => none
          | some (v, r3) =>
            let r3w := r3.dropWhile isJsonWs
            if r3w.take 1 = [','] then
              parseMembers fuel ((r3w.drop 1).dropWhile isJsonWs) (dictInsert acc k v)
            else if r3w.take 1 = ['\x7d'] then
              some (Json.obj (dictInsert acc k v), r3w.drop 1)
            else none
        else none
    else none

/-- Array body after the opening bracket (json.decoder `JSONArray`). -/
def parseArrBody (fuel : Nat) (cs : Str) : Option (Json × Str) :=
  match fuel with
  | 0 => none
  | fuel + 1 =>
    let cs1 := cs.dropWhile isJsonWs
    if cs1.take 1 = [']'] then some (Json.arr [], cs1.drop 1)
    else parseElems fuel cs1 []

/-- Elements of an array, starting at a value. -/
def parseElems (fuel : Nat) (cs : Str) (acc : List Json) : Option (Json × Str) :=
  match fuel with
  | 0 => none
  | fuel + 1 =>
    match parseValue fuel cs with
    | none => none
    | some (v, r1) =>
      let r1w := r1.dropWhile isJsonWs
      if r1w.take 1 = [','] then parseElems fuel ((r1w.drop 1).dropWhile isJsonWs) (acc ++ [v])
      else if r1w.take 1 = [']'] then some (Json.arr (acc ++ [v]), r1w.drop 1)
      else none

end

/-- Python `json.loads`: skip leading whitespace, parse one value, and
require only whitespace after it. -/
def loads (t : Str) : Option Json :=
  match parseValue (t.length + 1) (t.dropWhile isJsonWs) with
  | some (v, rest) => if (rest.dropWhile isJsonWs).isEmpty then some v else none
  | none => none

/-- Python `json.JSONDecoder().raw_decode(t, idx)`: parse the first value
starting exactly at `idx`, ignoring trailing content. -/
def rawDecode (t : Str) (idx : Nat) : Option (Json × Str) :=
  parseValue (t.length + 1) (t.drop idx)

/-!
Regex models.  Each regex used by judge.py is hand-compiled into a
scanning function with Python `re` semantics (leftmost match,
backtracking); `finditer` continues after each match end.
-/

/-- Match of `_NUMERIC_KV_RE` = `"(\w+)"\s*:\s*(\d+)` anchored at the head
of the input: returns the two groups and the remainder after the match.
The greedy `\w+` / `\s*` / `\d+` pieces cannot backtrack usefully (a
shorter run still faces a non-matching next character), so maximal runs
are taken. -/
def matchNumericKVAt (cs : Str) : Option ((Str × Int) × Str) :=
  match cs with
  | '\"' :: r1 =>
    let w := r1.takeWhile isWordChar
    if w.isEmpty then none
    else
      match r1.drop w.length with
      | '\"' :: r2 =>
        match r2.dropWhile isPyWs with
        | ':' :: r4 =>
          let r5 := r4.dropWhile isPyWs
          let ds := r5.takeWhile isDigitChar
          if ds.isEmpty then none
          else some ((w, Int.ofNat (digitsToNat ds)), r5.drop ds.length)
        | _ => none
      | _ => none
  | _ => none

theorem lenDropWhileLe (p : Char → Bool) (l : Str) : (l.dropWhile p).length ≤ l.length :=
  (List.dropWhile_sublist _).length_le

theorem lenTakeWhileLe (p : Char → Bool) (l : Str) : (l.takeWhile p).length ≤ l.length :=
  (List.takeWhile_sublist _).length_le

theorem matchNumericKVAt_len {cs : Str} {p : (Str × Int) × Str}
    (h : matchNumericKVAt cs = some p) : p.2.length < cs.length := by
  unfold matchNumericKVAt at h
  dsimp only at h
  split at h
  case h_2 => exact absurd h (by simp)
  case h_1 r1 =>
    split at h
    case isTrue => exact absurd h (by simp)
    case isFalse hw =>
      split at h
      case h_2 => exact absurd h (by simp)
      case h_1 r2 heq2 =>
        split at h
        case h_2 => exact absurd h (by simp)
        case h_1 r4 heq4 =>
          split at h
          case isTrue => exact absurd h (by simp)
          case isFalse hds =>
            have hlen5 : (r4.dropWhile isPyWs).length ≤ r4.length := lenDropWhileLe _ _
            have hlen4 : r4.length < r2.length := by
              have := congrArg List.length heq4
              have h2 : (r2.dropWhile isPyWs).length ≤ r2.length := lenDropWhileLe _ _
              simp at this
              omega
            have hlen2 : r2.length < r1.length := by
              have := congrArg List.length heq2
              have h1 : (r1.drop (r1.takeWhile isWordChar).length).length ≤ r1.length := by
                simp
              simp at this
              omega
            have hds' : 0 < ((r4.dropWhile isPyWs).takeWhile isDigitChar).length := by
              rcases Nat.eq_zero_or_pos ((r4.dropWhile isPyWs).takeWhile isDigitChar).length with hz | hp
              · exact absurd (List.eq_nil_of_length_eq_zero hz) (by simpa [List.isEmpty_iff] using hds)
              · exact hp
            have htw : ((r4.dropWhile isPyWs).takeWhile isDigitChar).length ≤ (r4.dropWhile isPyWs).length :=
              lenTakeWhileLe _ _
            injection h with h
            subst h
            simp only [List.length_drop, List.length_cons]
            omega

/-- `_NUMERIC_KV_RE.finditer` (see `numericScan`); `fuel` keeps the
recursion structural so the definition evaluates by kernel reduction —
one unit per input character suffices since every step consumes at
least one character (`matchNumericKVAt_len`). -/
def numericScanF (fuel : Nat) (cs : Str) : List (Str × Int) :=
  match fuel with
  | 0 => []
  | fuel + 1 =>
    match matchNumericKVAt cs with
    | some (p, after) => p :: numericScanF fuel after
    | none =>
      match cs with
      | [] => []
      | _ :: rest => numericScanF fuel rest

/-- `_NUMERIC_KV_RE.finditer`: all non-overlapping matches, leftmost
first, resuming after each match end. -/
def numericScan (cs : Str) : List (Str × Int) :=
  numericScanF (cs.length + 1) cs

/-- Greedy scan of the string-value group `((?:[^"\\]|\\.)*)` followed by
a closing quote: the alternatives are disjoint on their first character,
so the scan is deterministic — consume `\\` plus one non-newline
character (the pattern is compiled without `re.DOTALL`, so the `.` of
`\\.` rejects a newline), or one non-quote non-backslash character
(negated classes match newlines regardless of `DOTALL`), and stop
successfully at an unescaped quote.  A stuck position (backslash before
a newline, trailing backslash, or end of input) fails the whole match:
backtracking cannot rescue it, since no shorter item sequence ends at a
bare quote.  Returns the raw group text (escapes NOT decoded, as `re`
groups are) and the remainder after the closing quote. -/
def scanRawStringValue (cs : Str) : Option (Str × Str) :=
  match cs with
  | [] => none
  | c :: rest =>
    if c = '\"' then some ([], rest)
    else if c = '\\' then
      match rest with
      | [] => none
      | d :: rest2 =>
        if d = '\n' then none
        else (scanRawStringValue rest2).map (fun p => (c :: d :: p.1, p.2))
    else (scanRawStringValue rest).map (fun p => (c :: p.1, p.2))

/-- Match of the string-pair regex `"(\w+)"\s*:\s*"((?:[^"\\]|\\.)*)"`
anchored at the head of the input. -/
def matchStringKVAt (cs : Str) : Option ((Str × Str) × Str) :=
  match cs with
  | '\"' :: r1 =>
    let w := r1.takeWhile isWordChar
    if w.isEmpty then none
    else
      match r1.drop w.length with
      | '\"' :: r2 =>
        match r2.dropWhile isPyWs with
        | ':' :: r4 =>
          match r4.dropWhile isPyWs with
          | '\"' :: r5 => (scanRawStringValue r5).map (fun p => ((w, p.1), p.2))
          | _ => none
        | _ => none
      | _ => none
  | _ => none

theorem scanRawStringValue_len {cs : Str} {p : Str × Str}
    (h : scanRawStringValue cs = some p) : p.2.length < cs.length := by
  induction cs using scanRawStringValue.induct generalizing p with
  | case1 => simp [scanRawStringValue] at h
  | case2 rest2 =>
    rw [scanRawStringValue.eq_def] at h
    dsimp only at h
    rw [if_pos rfl] at h
    injection h with h
    subst h
    simp
  | case3 hne => simp [scanRawStringValue] at h
  | case4 rest2 hne =>
    rw [scanRawStringValue.eq_def] at h
    dsimp only at h
    rw [if_neg hne, if_pos rfl, if_pos rfl] at h
    exact absurd h (by simp)
  | case5 d rest2 hd hne ih =>
    rw [scanRawStringValue.eq_def] at h
    dsimp only at h
    rw [if_neg hne, if_pos rfl, if_neg hd] at h
    match hr : scanRawStringValue rest2 with
    | none => rw [hr] at h; exact absurd h (by simp)
    | some q =>
      rw [hr] at h
      injection h with h
      subst h
      have := ih hr
      simp only [List.length_cons]
      omega
  | case6 d rest2 h1 h2 ih =>
    rw [scanRawStringValue.eq_def] at h
    dsimp only at h
    rw [if_neg h1, if_neg h2] at h
    match hr : scanRawStringValue rest2 with
    | none => rw [hr] at h; exact absurd h (by simp)
    | some q =>
      rw [hr] at h
      injection h with h
      subst h
      have := ih hr
      simp only [List.length_cons]
      omega

theorem matchStringKVAt_len {cs : Str} {p : (Str × Str) × Str}
    (h : matchStringKVAt cs = some p) : p.2.length < cs.length := by
  unfold matchStringKVAt at h
  dsimp only at h
  split at h
  case h_2 => exact absurd h (by simp)
  case h_1 r1 =>
    split at h
    case isTrue => exact absurd h (by simp)
    case isFalse hw =>
      split at h
      case h_2 => exact absurd h (by simp)
      case h_1 r2 heq2 =>
        split at h
        case h_2 => exact absurd h (by simp)
        case h_1 r4 heq4 =>
          split at h
          case h_2 => exact absurd h (by simp)
          case h_1 r5 heq5 =>
            match hr : scanRawStringValue r5 with
            | none => rw [hr] at h; exact absurd h (by simp)
            | some q =>
              rw [hr] at h
              injection h with h
              subst h
              have hs := scanRawStringValue_len hr
              have hlen5 : r5.length < r4.length := by
                have := congrArg List.length heq5
                have hx : (r4.dropWhile isPyWs).length ≤ r4.length := lenDropWhileLe _ _
                simp at this
                omega
              have hlen4 : r4.length < r2.length := by
                have := congrArg List.length heq4
                have hx : (r2.dropWhile isPyWs).length ≤ r2.length := lenDropWhileLe _ _
                simp at this
                omega
              have hlen2 : r2.length < r1.length := by
                have := congrArg List.length heq2
                have hx : (r1.drop (r1.takeWhile isWordChar).length).length ≤ r1.length := by simp
                simp at this
                omega
              simp only [List.length_cons]
              omega

/-- String-pair `finditer` (see `stringScan`), fuelled like
`numericScanF` (adequacy by `matchStringKVAt_len`). -/
def stringScanF (fuel : Nat) (cs : Str) : List (Str × Str) :=
  match fuel with
  | 0 => []
  | fuel + 1 =>
    match matchStringKVAt cs with
    | some (p, after) => p :: stringScanF fuel after
    | none =>
      match cs with
      | [] => []
      | _ :: rest => stringScanF fuel rest

/-- String-pair `finditer`: all non-overlapping matches, leftmost first,
resuming after each match end. -/
def stringScan (cs : Str) : List (Str × Str) :=
  stringScanF (cs.length + 1) cs

/-- Continuation test for the fence regex after the non-greedy group:
`\n?\s*` immediately followed by a closing ``` fence.  Since `\n` is
itself in `\s`, `\n?\s*` matches exactly the whitespace-only strings, so
the test is: some whitespace-only prefix ends at a ``` fence. -/
def fenceCloseOk (cs : Str) : Bool :=
  match cs with
  | [] => false
  | c :: rest =>
    if c = '`' then (if rest.take 2 = ['`', '`'] then true else false)
    else if isPyWs c then fenceCloseOk rest
    else false

/-- The non-greedy group `(.*?)` of `_JSON_BLOCK_RE` (DOTALL): the
shortest prefix whose remainder satisfies `fenceCloseOk`. -/
def fenceGroup (cs : Str) : Option Str :=
  match cs with
  | [] => if fenceCloseOk [] then some [] else none
  | c :: rest =>
    if fenceCloseOk (c :: rest) then some []
    else (fenceGroup rest).map (c :: ·)

/-- Match of `_JSON_BLOCK_RE` = ````(?:json)?\s*\n?(.*?)\n?\s*``` ````
(DOTALL) anchored at the head of the input, returning group(1).
Hand-compiled backtracking notes: `(?:json)?` is greedy, and declining
it cannot help (the group `(.*?)` could absorb the four letters, and the
rest of the pattern succeeds on a suffix iff it succeeds on the larger
string, since `json` starts with a non-space non-backtick character);
`\s*\n?` is greedy with the maximal whitespace run (backtracking to a
shorter run leaves a whitespace character at the group start, which the
group can also absorb, so again success is unaffected while the greedy
split is preferred). -/
def fenceMatchAt (cs : Str) : Option Str :=
  if cs.take 3 = lit "```" then
    let r := cs.drop 3
    let r1 := if r.take 4 = lit "json" then r.drop 4 else r
    fenceGroup (r1.dropWhile isPyWs)
  else none

/-- `_JSON_BLOCK_RE.search`: leftmost match. -/
def fenceSearch (cs : Str) : Option Str :=
  match cs with
  | [] => none
  | c :: rest =>
    match fenceMatchAt (c :: rest) with
    | some g => some g
    | none => fenceSearch rest

/-- Match of the unclosed-fence regex ````(?:json)?\s*\n?(\{.*)````
(DOTALL) anchored at the head of the input: after the fence and optional
`json` tag, the maximal whitespace run must be followed by `{`
(backtracking to a shorter run leaves a whitespace character where `\{`
must match, so only the greedy split can succeed); group(1) is the
brace and everything after it. -/
def openFenceMatchAt (cs : Str) : Option Str :=
  if cs.take 3 = lit "```" then
    let r := cs.drop 3
    let r1 := if r.take 4 = lit "json" then r.drop 4 else r
    let r2 := r1.dropWhile isPyWs
    if r2.take 1 = ['\x7b'] then some r2 else none
  else none

/-- Search for the unclosed-fence regex: leftmost match. -/
def openFenceSearch (cs : Str) : Option Str :=
  match cs with
  | [] => none
  | c :: rest =>
    match openFenceMatchAt (c :: rest) with
    | some g => some g
    | none => openFenceSearch rest

/-- Python `type(obj).__name__` for the values `json.loads` can return. -/
def pyTypeName (v : Json) : Str :=
  match v with
  | Json.null => lit "NoneType"
  | Json.bool _ => lit "bool"
  | Json.int _ => lit "int"
  | Json.floatLit _ => lit "float"
  | Json.str _ => lit "str"
  | Json.arr _ => lit "list"
  | Json.obj _ => lit "dict"

/-- `_repair_truncated_json`: regex-extract all `"key": <integer>` pairs,
then all complete `"key": "<string>"` pairs (only for keys not already
present), raising iff nothing was extracted. -/
def repair_truncated_json (t : Str) : Except Str Json :=
  let base : List (Str × Json) :=
    (numericScan t).foldl (fun acc p => dictInsert acc p.1 (Json.int p.2)) []
  let result : List (Str × Json) :=
    (stringScan t).foldl
      (fun acc p => if dictHasKey acc p.1 then acc else acc ++ [(p.1, Json.str p.2)]) base
  if result.isEmpty then
    Except.error (lit "Could not parse JSON object from: " ++ t.take 200)
  else Except.ok (Json.obj result)

/-- `_parse_first_object`: parse the first JSON object from `t`, ignoring
trailing content; falls back to the first-to-last-brace substring and
then to truncated-JSON repair. -/
def parse_first_object (t : Str) : Except Str Json :=
  let t := pyStrip t
  match loads t with
  | some v => Except.ok v
  | none =>
    match findChar t '\x7b' with
    | none => Except.error (lit "No JSON object found")
    | some idx =>
      match rawDecode t idx with
      | some (v, _) =>
        match v with
        | Json.obj ms => Except.ok (Json.obj ms)
        | _ => Except.error (lit "Expected JSON object, got " ++ pyTypeName v)
      | none =>
        let afterRaw : Except Str Json :=
          match rfindChar t '\x7d' with
          | some last =>
            if idx < last then
              match loads (pySlice t idx (last + 1)) with
              | some v => Except.ok v
              | none => repair_truncated_json (t.drop idx)
            else repair_truncated_json (t.drop idx)
          | none => repair_truncated_json (t.drop idx)
        afterRaw

/-- `_extract_json`: extract a JSON object from an LLM response — raw
JSON first, then a closed fenced block, then an unclosed fenced block,
then the first-`{`-to-last-`}` span, else a parse error. -/
def extract_json (text : Str) : Except Str Json :=
  let stripped := pyStrip text
  if stripped.take 1 = ['\x7b'] then parse_first_object stripped
  else
    match fenceSearch text with
    | some g => parse_first_object (pyStrip g)
    | none =>
      match openFenceSearch text with
      | some g => parse_first_object (pyStrip g)
      | none =>
        let failMsg := lit "Could not extract JSON from judge response:\n" ++ text.take 500
        match findChar text '\x7b', rfindChar text '\x7d' with
        | some first, some last =>
          if first < last then
            match loads (pySlice text first (last + 1)) with
            | some v => Except.ok v
            | none => Except.error failMsg
          else Except.error failMsg
        | _, _ => Except.error failMsg

/-!
List and strip utilities used by the extractor proofs.
-/

theorem dropWhile_head_not (p : Char → Bool) (l : Str) {c : Char}
    (h : (l.dropWhile p).head? = some c) : p c = false := by
  induction l with
  | nil => simp [List.dropWhile] at h
  | cons a l ih =>
    rw [List.dropWhile_cons] at h
    by_cases hp : p a = true
    · rw [if_pos hp] at h
      exact ih h
    · rw [if_neg hp] at h
      simp at h
      subst h
      simpa using hp

theorem dropWhile_of_head_not (p : Char → Bool) (l : Str)
    (h : ∀ c, l.head? = some c → p c = false) : l.dropWhile p = l := by
  cases l with
  | nil => rfl
  | cons a l =>
    rw [List.dropWhile_cons_of_neg]
    simp [h a rfl]

theorem rtrim_prefix (l : Str) : ∃ r, rtrim l ++ r = l := by
  have hs : rtrim l ++ (l.reverse.takeWhile isPyWs).reverse = l := by
    unfold rtrim
    rw [← List.reverse_append, List.takeWhile_append_dropWhile, List.reverse_reverse]
  exact ⟨(l.reverse.takeWhile isPyWs).reverse, hs⟩

theorem rtrim_head (l : Str) {c : Char} (h : (rtrim l).head? = some c) :
    l.head? = some c := by
  obtain ⟨r, hr⟩ := rtrim_prefix l
  rw [← hr]
  cases he : rtrim l with
  | nil => rw [he] at h; simp at h
  | cons a t =>
    rw [he] at h
    simp at h
    simp [he, h]

theorem rtrim_idem (l : Str) : rtrim (rtrim l) = rtrim l := by
  unfold rtrim
  rw [List.reverse_reverse]
  congr 1
  apply dropWhile_of_head_not
  intro c hc
  exact dropWhile_head_not _ _ hc

theorem ltrim_rtrim_ltrim (l : Str) : ltrim (rtrim (ltrim l)) = rtrim (ltrim l) := by
  apply dropWhile_of_head_not
  intro c hc
  exact dropWhile_head_not _ _ (rtrim_head _ hc)

theorem pyStrip_idem (t : Str) : pyStrip (pyStrip t) = pyStrip t := by
  unfold pyStrip
  rw [ltrim_rtrim_ltrim, rtrim_idem]

/-!
Behaviour of the extractor tiers when the stripped text starts with an
opening brace.
-/

theorem parseMembers_obj (fuel : Nat) (cs : Str) (acc : List (Str × Json))
    {v : Json} {r : Str} (h : parseMembers fuel cs acc = some (v, r)) :
    ∃ ms, v = Json.obj ms := by
  induction fuel generalizing cs acc v r with
  | zero => simp [parseMembers] at h
  | succ fuel ih =>
    rw [parseMembers.eq_def] at h
    dsimp only at h
    by_cases h1 : cs.take 1 = ['\"']
    case neg => rw [if_neg h1] at h; exact absurd h (by simp)
    rw [if_pos h1] at h
    cases hps : parseStringBody (cs.drop 1) with
    | none => rw [hps] at h; exact absurd h (by simp)
    | some kr =>
      obtain ⟨k, r1⟩ := kr
      rw [hps] at h
      dsimp only at h
      by_cases h2 : (r1.dropWhile isJsonWs).take 1 = [':']
      case neg => rw [if_neg h2] at h; exact absurd h (by simp)
      rw [if_pos h2] at h
      cases hpv : parseValue fuel (((r1.dropWhile isJsonWs).drop 1).dropWhile isJsonWs) with
      | none => rw [hpv] at h; exact absurd h (by simp)
      | some vr =>
        obtain ⟨v0, r3⟩ := vr
        rw [hpv] at h
        dsimp only at h
        by_cases h3 : (r3.dropWhile isJsonWs).take 1 = [',']
        · rw [if_pos h3] at h
          exact ih _ _ h
        · rw [if_neg h3] at h
          by_cases h4 : (r3.dropWhile isJsonWs).take 1 = ['\x7d']
          · rw [if_pos h4] at h
            injection h with hh
            injection hh with ha hb
            exact ⟨_, ha.symm⟩
          · rw [if_neg h4] at h
            exact absurd h (by simp)

theorem parseObjBody_obj (fuel : Nat) (cs : Str) {v : Json} {r : Str}
    (h : parseObjBody fuel cs = some (v, r)) : ∃ ms, v = Json.obj ms := by
  cases fuel with
  | zero => simp [parseObjBody] at h
  | succ fuel =>
    rw [parseObjBody.eq_def] at h
    dsimp only at h
    split at h
    · injection h with hh
      injection hh with h1 h2
      exact ⟨_, h1.symm⟩
    · exact parseMembers_obj _ _ _ h

theorem parseValue_brace_obj (fuel : Nat) (s : Str) {v : Json} {r : Str}
    (h : parseValue fuel ('\x7b' :: s) = some (v, r)) : ∃ ms, v = Json.obj ms := by
  cases fuel with
  | zero => simp [parseValue] at h
  | succ fuel =>
    rw [parseValue] at h
    exact parseObjBody_obj _ _ h

theorem loads_brace_obj (s : Str) {v : Json}
    (h : loads ('\x7b' :: s) = some v) : ∃ ms, v = Json.obj ms := by
  unfold loads at h
  rw [List.dropWhile_cons_of_neg (by simp [isJsonWs])] at h
  split at h
  case h_2 => simp at h
  case h_1 w rest heq =>
    split at h
    case isFalse => simp at h
    case isTrue =>
      injection h with h
      subst h
      exact parseValue_brace_obj _ _ heq

/-!
Characterization of truncated-JSON repair failure: the repair result is
empty exactly when both pair scans found nothing.
-/

theorem dictInsert_ne_nil (d : List (Str × Json)) (k : Str) (v : Json) :
    dictInsert d k v ≠ [] := by
  cases d with
  | nil => simp [dictInsert]
  | cons p rest =>
    obtain ⟨k0, v0⟩ := p
    unfold dictInsert
    split <;> simp

theorem foldNumeric_ne_nil (L : List (Str × Int)) (acc : List (Str × Json))
    (h : acc ≠ []) :
    L.foldl (fun acc p => dictInsert acc p.1 (Json.int p.2)) acc ≠ [] := by
  induction L generalizing acc with
  | nil => exact h
  | cons p L ih => exact ih _ (dictInsert_ne_nil _ _ _)

theorem foldString_ne_nil (L : List (Str × Str)) (acc : List (Str × Json))
    (h : acc ≠ []) :
    L.foldl (fun acc p => if dictHasKey acc p.1 then acc else acc ++ [(p.1, Json.str p.2)]) acc ≠ [] := by
  induction L generalizing acc with
  | nil => exact h
  | cons p L ih =>
    apply ih
    dsimp only
    split
    · exact h
    · simp

theorem repair_error_iff (t : Str) :
    (∃ e, repair_truncated_json t = Except.error e) ↔
      numericScan t = [] ∧ stringScan t = [] := by
  constructor
  · rintro ⟨e, he⟩
    unfold repair_truncated_json at he
    by_cases hn : numericScan t = []
    · by_cases hs : stringScan t = []
      · exact ⟨hn, hs⟩
      · exfalso
        rw [hn] at he
        obtain ⟨p, L, hL⟩ : ∃ p L, stringScan t = p :: L := by
          cases hsc : stringScan t with
          | nil => exact absurd hsc hs
          | cons p L => exact ⟨p, L, rfl⟩
        rw [hL] at he
        simp only [List.foldl_nil, List.foldl_cons, dictHasKey, List.any_nil,
          Bool.false_eq_true, if_false, List.nil_append] at he
        have hne := foldString_ne_nil L [(p.1, Json.str p.2)] (by simp)
        split at he
        · next hempty => exact hne (by rwa [List.isEmpty_iff] at hempty)
        · exact Except.noConfusion he
    · exfalso
      obtain ⟨p, L, hL⟩ : ∃ p L, numericScan t = p :: L := by
        cases hsc : numericScan t with
        | nil => exact absurd hsc hn
        | cons p L => exact ⟨p, L, rfl⟩
      rw [hL] at he
      simp only [List.foldl_cons, List.foldl_nil, dictInsert] at he
      have hbase := foldNumeric_ne_nil L [(p.1, Json.int p.2)] (by simp)
      have hres := foldString_ne_nil (stringScan t) _ hbase
      split at he
      · next hempty => exact hres (by rwa [List.isEmpty_iff] at hempty)
      · exact Except.noConfusion he
  · rintro ⟨hn, hs⟩
    refine ⟨lit "Could not parse JSON object from: " ++ t.take 200, ?_⟩
    unfold repair_truncated_json
    rw [hn, hs]
    rfl

theorem repair_ok_obj (t : Str) {v : Json}
    (h : repair_truncated_json t = Except.ok v) : ∃ ms, v = Json.obj ms := by
  unfold repair_truncated_json at h
  dsimp only at h
  split at h
  · exact absurd h (by simp)
  · simp only [Except.ok.injEq] at h
    exact ⟨_, h.symm⟩

theorem findChar_head (s : Str) (c : Char) : findChar (c :: s) c = some 0 := by
  simp [findChar, List.findIdx?_cons]

/-- On input that is already stripped and starts with an opening brace,
`_parse_first_object` either returns an object or fails with the
truncated-repair error, and the latter happens exactly when neither
pair-extraction regex finds anything. -/
theorem parse_first_object_brace (s : Str) (hstrip : pyStrip ('\x7b' :: s) = '\x7b' :: s) :
    (∃ ms, parse_first_object ('\x7b' :: s) = Except.ok (Json.obj ms)) ∨
    (parse_first_object ('\x7b' :: s) =
        Except.error (lit "Could not parse JSON object from: " ++ ('\x7b' :: s).take 200) ∧
      numericScan ('\x7b' :: s) = [] ∧ stringScan ('\x7b' :: s) = []) := by
  have hrep :
      (∃ ms, repair_truncated_json ('\x7b' :: s) = Except.ok (Json.obj ms)) ∨
      (repair_truncated_json ('\x7b' :: s) =
          Except.error (lit "Could not parse JSON object from: " ++ ('\x7b' :: s).take 200) ∧
        numericScan ('\x7b' :: s) = [] ∧ stringScan ('\x7b' :: s) = []) := by
    cases hre : repair_truncated_json ('\x7b' :: s) with
    | ok v =>
      obtain ⟨ms, rfl⟩ := repair_ok_obj _ hre
      exact Or.inl ⟨ms, rfl⟩
    | error e =>
      obtain ⟨hn, hs⟩ := (repair_error_iff _).mp ⟨e, hre⟩
      have he : e = lit "Could not parse JSON object from: " ++ ('\x7b' :: s).take 200 := by
        unfold repair_truncated_json at hre
        rw [hn, hs] at hre
        simp only [List.foldl_nil] at hre
        simp at hre
        exact hre.symm
      subst he
      exact Or.inr ⟨rfl, hn, hs⟩
  unfold parse_first_object
  dsimp only
  rw [hstrip]
  cases hl : loads ('\x7b' :: s) with
  | some v =>
    dsimp only
    obtain ⟨ms, rfl⟩ := loads_brace_obj _ hl
    exact Or.inl ⟨ms, rfl⟩
  | none =>
    dsimp only
    rw [findChar_head]
    dsimp only
    cases hraw : rawDecode ('\x7b' :: s) 0 with
    | some pr =>
      obtain ⟨v, r⟩ := pr
      dsimp only
      have hv : parseValue (('\x7b' :: s).length + 1) ('\x7b' :: s) = some (v, r) := by
        unfold rawDecode at hraw
        rwa [List.drop_zero] at hraw
      obtain ⟨ms, rfl⟩ := parseValue_brace_obj _ _ hv
      exact Or.inl ⟨ms, rfl⟩
    | none =>
      dsimp only
      rw [List.drop_zero]
      cases hrf : rfindChar ('\x7b' :: s) '\x7d' with
      | some last =>
        dsimp only
        split
        · cases hl2 : loads (pySlice ('\x7b' :: s) 0 (last + 1)) with
          | some v =>
            dsimp only
            have hsl : pySlice ('\x7b' :: s) 0 (last + 1) = '\x7b' :: s.take last := by
              unfold pySlice
              rw [List.drop_zero, Nat.sub_zero, List.take_succ_cons]
            rw [hsl] at hl2
            obtain ⟨ms, rfl⟩ := loads_brace_obj _ hl2
            exact Or.inl ⟨ms, rfl⟩
          | none => exact hrep
        · exact hrep
      | none => exact hrep

/-- C1 counterexample: the input `Result: {"a": 1` contains an opening
brace followed by a regex-extractable `"key": <integer>` pair, yet
`_extract_json` raises its parse error: the text does not start with a
brace, has no code fence, and has no closing brace, so the
truncated-repair tier is never reached. -/
theorem extract_json_unfenced_pair_raises :
    findChar (lit "Result: \x7b\"a\": 1") '\x7b' = some 8 ∧
    numericScan ((lit "Result: \x7b\"a\": 1").drop 8) = [(lit "a", 1)] ∧
    extract_json (lit "Result: \x7b\"a\": 1") =
      Except.error (lit "Could not extract JSON from judge response:\nResult: \x7b\"a\": 1") :=
  ⟨rfl, rfl, rfl⟩

/-- C1 (amended): on the inputs whose stripped text starts with an
opening brace — the only shape on which the truncated-repair tier is
reachable — `_extract_json` returns a map whenever at least one
`"key": <integer>` or complete `"key": "<string>"` pair is
regex-extractable from the stripped text, and raises only when no such
pair is extractable. -/
theorem extract_json_brace_start (t : Str) (hb : (pyStrip t).take 1 = ['\x7b']) :
    ((numericScan (pyStrip t) ≠ [] ∨ stringScan (pyStrip t) ≠ []) →
      ∃ ms, extract_json t = Except.ok (Json.obj ms)) ∧
    (∀ e, extract_json t = Except.error e →
      numericScan (pyStrip t) = [] ∧ stringScan (pyStrip t) = []) := by
  obtain ⟨s, hs⟩ : ∃ s, pyStrip t = '\x7b' :: s := by
    cases hp : pyStrip t with
    | nil => rw [hp] at hb; simp at hb
    | cons a s =>
      rw [hp] at hb
      rw [List.take_succ_cons, List.take_zero] at hb
      injection hb with hb1 hb2
      exact ⟨s, by rw [hb1]⟩
  have hstrip : pyStrip ('\x7b' :: s) = '\x7b' :: s := by
    have := pyStrip_idem t
    rw [hs] at this
    exact this
  have hE : extract_json t = parse_first_object ('\x7b' :: s) := by
    unfold extract_json
    dsimp only
    rw [if_pos hb, hs]
  rw [hs]
  rcases parse_first_object_brace s hstrip with ⟨ms, hok⟩ | ⟨herr, hn, hsc⟩
  · constructor
    · intro _
      exact ⟨ms, hE.trans hok⟩
    · intro e he
      rw [hE, hok] at he
      exact Except.noConfusion he
  · constructor
    · intro hne
      rcases hne with hne | hne
      · exact absurd hn hne
      · exact absurd hsc hne
    · intro e _
      exact ⟨hn, hsc⟩

theorem extract_json_brace_start_witness :
    (pyStrip (lit "\x7b\"a\": 1")).take 1 = ['\x7b'] ∧
    (∃ ms, extract_json (lit "\x7b\"a\": 1") = Except.ok (Json.obj ms)) :=
  ⟨rfl, (extract_json_brace_start (lit "\x7b\"a\": 1") rfl).1 (Or.inl (by decide))⟩

/-- C2: for the truncated judge response
`{"rule_coverage": 4, "rule_accuracy": 5, "reasoning": "This is a good imple`
(an unterminated string with no closing brace), extraction does not raise
and returns exactly the map with rule_coverage 4 and rule_accuracy 5. -/
theorem extract_json_truncated_recovery :
    extract_json
        (lit "\x7b\"rule_coverage\": 4, \"rule_accuracy\": 5, \"reasoning\": \"This is a good imple") =
      Except.ok (Json.obj [(lit "rule_coverage", Json.int 4), (lit "rule_accuracy", Json.int 5)]) :=
  rfl

/-!
Serializer model for claim C3: Python `json.dumps` (default options:
`ensure_ascii=True`, no indent, separators `", "` and `": "`) restricted
to dicts whose values are strings or ints, which is what the round-trip
claim quantifies over.
-/

/-- A Python value that is a string or an int. -/
inductive PyVal where
  | s (v : Str)
  | i (n : Int)

/-- The JSON value `json.loads` returns for a serialized `PyVal`. -/
def PyVal.toJson : PyVal → Json
  | .s v => Json.str v
  | .i n => Json.int n

/-- Decimal digits of a natural number (Python `str`). -/
def natToDec (n : Nat) : Str :=
  if n = 0 then ['0']
  else ((Nat.digits 10 n).map (fun d => Char.ofNat (48 + d))).reverse

/-- Python `str` of an int. -/
def intToDec (i : Int) : Str :=
  if i < 0 then '-' :: natToDec (-i).toNat else natToDec i.toNat

/-- Lowercase hex digit (for `\uXXXX` escapes, `"%04x"`). -/
def hexDigitChar (d : Nat) : Char :=
  if d < 10 then Char.ofNat (48 + d) else Char.ofNat (87 + d)

/-- Four lowercase hex digits of `n < 0x10000`. -/
def hex4 (n : Nat) : Str :=
  [hexDigitChar (n / 4096 % 16), hexDigitChar (n / 256 % 16),
   hexDigitChar (n / 16 % 16), hexDigitChar (n % 16)]

/-- One character of `json.encoder.py_encode_basestring_ascii`: the
short-escape table, `\uXXXX` for other controls and all non-ASCII (as a
surrogate pair beyond the BMP), and the printable ASCII range verbatim. -/
def escChar (c : Char) : Str :=
  if c = '\\' then ['\\', '\\']
  else if c = '\"' then ['\\', '\"']
  else if c = codeChar 8 then ['\\', 'b']
  else if c = codeChar 12 then ['\\', 'f']
  else if c = '\n' then ['\\', 'n']
  else if c = '\r' then ['\\', 'r']
  else if c = '\t' then ['\\', 't']
  else if c.toNat < 0x20 then '\\' :: 'u' :: hex4 c.toNat
  else if c.toNat < 0x7f then [c]
  else if c.toNat ≤ 0xffff then '\\' :: 'u' :: hex4 c.toNat
  else
    ('\\' :: 'u' :: hex4 (0xd800 + (c.toNat - 0x10000) / 0x400)) ++
    ('\\' :: 'u' :: hex4 (0xdc00 + (c.toNat - 0x10000) % 0x400))

/-- Escaped body of a JSON string literal. -/
def escString : Str → Str
  | [] => []
  | c :: rest => escChar c ++ escString rest

/-- A serialized JSON string, quotes included. -/
def dumpStr (s : Str) : Str := '\"' :: (escString s ++ ['\"'])

/-- A serialized value. -/
def dumpVal : PyVal → Str
  | .s v => dumpStr v
  | .i n => intToDec n

/-- The members of a serialized dict, joined by `", "` with the `": "`
key separator. -/
def dumpPairs : List (Str × PyVal) → Str
  | [] => []
  | [(k, v)] => dumpStr k ++ (':' :: ' ' :: dumpVal v)
  | (k, v) :: rest => dumpStr k ++ (':' :: ' ' :: dumpVal v) ++ (',' :: ' ' :: dumpPairs rest)

/-- `json.dumps` of a str/int-valued dict. -/
def dumpsDict (d : List (Str × PyVal)) : Str := '\x7b' :: (dumpPairs d ++ ['\x7d'])

/-- The prose-embedded judge response of claim C3:
`Here is the result: ```json\n{...}\n``` `. -/
def embedProse (d : List (Str × PyVal)) : Str :=
  lit "Here is the result: " ++
    (lit "```" ++ (lit "json" ++ ('\n' :: (dumpsDict d ++ ('\n' :: lit "```")))))

/-- Triple-backtick detector (the condition under which the fenced-block
regex closes the group early). -/
def hasTripleBacktick (cs : Str) : Bool :=
  match cs with
  | [] => false
  | _ :: rest =>
    if cs.take 3 = lit "```" then true else hasTripleBacktick rest

/-!
Round-trip: parsing the serializer output recovers the value.
Character-level facts first.
-/

theorem char_toNat_valid (c : Char) : c.toNat.isValidChar := by
  have := c.valid
  simpa [Char.toNat, UInt32.isValidChar] using this

theorem codeChar_toNat (c : Char) : codeChar c.toNat = c := by
  unfold codeChar
  rw [if_pos (char_toNat_valid c)]
  exact Char.ofNat_toNat c

theorem hexVal_hexChar : ∀ d, d < 16 → hexDigitVal (hexDigitChar d) = some d := by
  decide

theorem hex4_shape (m : Nat) :
    hex4 m = [hexDigitChar (m / 4096 % 16), hexDigitChar (m / 256 % 16),
      hexDigitChar (m / 16 % 16), hexDigitChar (m % 16)] := rfl

theorem hex4_reconstruct (m : Nat) (hm : m < 0x10000) :
    ((m / 4096 % 16 * 16 + m / 256 % 16) * 16 + m / 16 % 16) * 16 + m % 16 = m := by
  omega

/-- A character's code point is never in the surrogate range. -/
theorem char_not_surrogate (c : Char) : ¬(0xd800 ≤ c.toNat ∧ c.toNat ≤ 0xdbff) := by
  have h := char_toNat_valid c
  rcases h with h | ⟨h1, h2⟩ <;> omega

/-- Parser step: closing quote. -/
theorem psF_quote (f : Nat) (X : Str) : parseStringBodyF (f + 1) ('\"' :: X) = some ([], X) := rfl

/-- Parser step: the seven short escapes. -/
theorem psF_escQuote (f : Nat) (X : Str) :
    parseStringBodyF (f + 1) ('\\' :: '\"' :: X) =
      (parseStringBodyF f X).map (fun p => ('\"' :: p.1, p.2)) := rfl

theorem psF_escBackslash (f : Nat) (X : Str) :
    parseStringBodyF (f + 1) ('\\' :: '\\' :: X) =
      (parseStringBodyF f X).map (fun p => ('\\' :: p.1, p.2)) := rfl

theorem psF_escB (f : Nat) (X : Str) :
    parseStringBodyF (f + 1) ('\\' :: 'b' :: X) =
      (parseStringBodyF f X).map (fun p => (codeChar 8 :: p.1, p.2)) := rfl

theorem psF_escF (f : Nat) (X : Str) :
    parseStringBodyF (f + 1) ('\\' :: 'f' :: X) =
      (parseStringBodyF f X).map (fun p => (codeChar 12 :: p.1, p.2)) := rfl

theorem psF_escN (f : Nat) (X : Str) :
    parseStringBodyF (f + 1) ('\\' :: 'n' :: X) =
      (parseStringBodyF f X).map (fun p => ('\n' :: p.1, p.2)) := rfl

theorem psF_escR (f : Nat) (X : Str) :
    parseStringBodyF (f + 1) ('\\' :: 'r' :: X) =
      (parseStringBodyF f X).map (fun p => ('\r' :: p.1, p.2)) := rfl

theorem psF_escT (f : Nat) (X : Str) :
    parseStringBodyF (f + 1) ('\\' :: 't' :: X) =
      (parseStringBodyF f X).map (fun p => ('\t' :: p.1, p.2)) := rfl

/-- Parser step: a plain (unescaped, non-control) character. -/
theorem psF_lit (f : Nat) (c : Char) (X : Str) (h2 : ¬c = '\"') (h1 : ¬c = '\\')
    (h8 : ¬c.toNat < 0x20) :
    parseStringBodyF (f + 1) (c :: X) =
      (parseStringBodyF f X).map (fun p => (c :: p.1, p.2)) := by
  rw [parseStringBodyF.eq_def]
  dsimp only
  rw [if_neg h2, if_neg h1, if_neg h8]

/-- Parser step: a BMP `\uXXXX` escape outside the surrogate range. -/
theorem psF_u (f : Nat) (m : Nat) (hm : m < 0x10000) (hs : ¬(0xd800 ≤ m ∧ m ≤ 0xdbff))
    (X : Str) :
    parseStringBodyF (f + 1) ('\\' :: 'u' :: (hex4 m ++ X)) =
      (parseStringBodyF f X).map (fun p => (codeChar m :: p.1, p.2)) := by
  rw [parseStringBodyF.eq_def]
  dsimp only
  simp only [hex4_shape, List.cons_append, List.nil_append]
  simp only [Char.reduceEq, reduceIte]
  rw [hexVal_hexChar _ (by omega), hexVal_hexChar _ (by omega),
    hexVal_hexChar _ (by omega), hexVal_hexChar _ (by omega)]
  dsimp only
  rw [hex4_reconstruct m hm]
  rw [if_neg hs]

/-- Decoding the low half of a surrogate pair. -/
theorem surrogatePair_decode (m lo : Nat) (hlo1 : 0xdc00 ≤ lo) (hlo2 : lo ≤ 0xdfff)
    (hlo3 : lo < 0x10000) (X : Str) :
    surrogatePair m ('\\' :: 'u' :: (hex4 lo ++ X)) =
      (codeChar (0x10000 + (m - 0xd800) * 0x400 + (lo - 0xdc00)), X) := by
  unfold surrogatePair
  rw [if_pos (by rfl)]
  simp only [hex4_shape, List.cons_append, List.nil_append, List.drop_succ_cons, List.drop_zero]
  rw [hexVal_hexChar _ (by omega), hexVal_hexChar _ (by omega),
    hexVal_hexChar _ (by omega), hexVal_hexChar _ (by omega)]
  dsimp only
  rw [hex4_reconstruct lo hlo3]
  rw [if_pos ⟨hlo1, hlo2⟩]

/-- Parser step: a high-surrogate `\uXXXX` escape defers to the
surrogate-pair lookahead. -/
theorem psF_u_high (f : Nat) (m : Nat) (hm : m < 0x10000) (hhi : 0xd800 ≤ m ∧ m ≤ 0xdbff)
    (X : Str) :
    parseStringBodyF (f + 1) ('\\' :: 'u' :: (hex4 m ++ X)) =
      (parseStringBodyF f (surrogatePair m X).2).map
        (fun p => ((surrogatePair m X).1 :: p.1, p.2)) := by
  rw [parseStringBodyF.eq_def]
  dsimp only
  simp only [hex4_shape, List.cons_append, List.nil_append]
  simp only [Char.reduceEq, reduceIte]
  rw [hexVal_hexChar _ (by omega), hexVal_hexChar _ (by omega),
    hexVal_hexChar _ (by omega), hexVal_hexChar _ (by omega)]
  dsimp only
  rw [hex4_reconstruct m hm]
  rw [if_pos hhi]

/-- Parser step: a surrogate pair of `\uXXXX` escapes encoding a
supplementary-plane code point `n`. -/
theorem psF_astral (f : Nat) (n : Nat) (hlow : 0x10000 ≤ n) (hup : n < 0x110000) (X : Str) :
    parseStringBodyF (f + 1)
        ('\\' :: 'u' :: (hex4 (0xd800 + (n - 0x10000) / 0x400) ++
          ('\\' :: 'u' :: (hex4 (0xdc00 + (n - 0x10000) % 0x400) ++ X)))) =
      (parseStringBodyF f X).map (fun p => (codeChar n :: p.1, p.2)) := by
  rw [psF_u_high f (0xd800 + (n - 0x10000) / 0x400) (by omega) ⟨by omega, by omega⟩]
  rw [surrogatePair_decode (0xd800 + (n - 0x10000) / 0x400)
    (0xdc00 + (n - 0x10000) % 0x400) (by omega) (by omega) (by omega)]
  have hrecon : 0x10000 + (0xd800 + (n - 0x10000) / 0x400 - 0xd800) * 0x400 +
      (0xdc00 + (n - 0x10000) % 0x400 - 0xdc00) = n := by omega
  rw [hrecon]

/-- Parsing the escaped body of a serialized string recovers the original
characters and stops at the closing quote. -/
theorem parseSB_escString (s : Str) : ∀ (rest : Str) (fuel : Nat),
    (escString s).length < fuel →
    parseStringBodyF fuel (escString s ++ ('\"' :: rest)) = some (s, rest) := by
  induction s with
  | nil =>
    intro rest fuel hf
    cases fuel with
    | zero => omega
    | succ f =>
      rw [escString, List.nil_append, psF_quote]
  | cons c s ih =>
    intro rest fuel hf
    rw [escString] at hf ⊢
    have hlen : 1 ≤ (escChar c).length := by
      unfold escChar
      repeat' split
      all_goals simp
    cases fuel with
    | zero => omega
    | succ f =>
      have hf' : (escString s).length < f := by
        rw [List.length_append] at hf
        omega
      have hih := ih rest f hf'
      unfold escChar
      by_cases h1 : c = '\\'
      · rw [if_pos h1]
        simp only [List.cons_append, List.nil_append]
        rw [psF_escBackslash, hih, h1]
        rfl
      rw [if_neg h1]
      by_cases h2 : c = '\"'
      · rw [if_pos h2]
        simp only [List.cons_append, List.nil_append]
        rw [psF_escQuote, hih, h2]
        rfl
      rw [if_neg h2]
      by_cases h3 : c = codeChar 8
      · rw [if_pos h3]
        simp only [List.cons_append, List.nil_append]
        rw [psF_escB, hih, h3]
        rfl
      rw [if_neg h3]
      by_cases h4 : c = codeChar 12
      · rw [if_pos h4]
        simp only [List.cons_append, List.nil_append]
        rw [psF_escF, hih, h4]
        rfl
      rw [if_neg h4]
      by_cases h5 : c = '\n'
      · rw [if_pos h5]
        simp only [List.cons_append, List.nil_append]
        rw [psF_escN, hih, h5]
        rfl
      rw [if_neg h5]
      by_cases h6 : c = '\r'
      · rw [if_pos h6]
        simp only [List.cons_append, List.nil_append]
        rw [psF_escR, hih, h6]
        rfl
      rw [if_neg h6]
      by_cases h7 : c = '\t'
      · rw [if_pos h7]
        simp only [List.cons_append, List.nil_append]
        rw [psF_escT, hih, h7]
        rfl
      rw [if_neg h7]
      by_cases h8 : c.toNat < 0x20
      · rw [if_pos h8]
        simp only [List.cons_append, List.nil_append, List.append_assoc]
        rw [psF_u f c.toNat (by omega) (char_not_surrogate c), hih, codeChar_toNat]
        rfl
      rw [if_neg h8]
      by_cases h9 : c.toNat < 0x7f
      · rw [if_pos h9]
        simp only [List.cons_append, List.nil_append]
        rw [psF_lit f c _ h2 h1 (by omega), hih]
        rfl
      rw [if_neg h9]
      by_cases h10 : c.toNat ≤ 0xffff
      · rw [if_pos h10]
        simp only [List.cons_append, List.nil_append, List.append_assoc]
        rw [psF_u f c.toNat (by omega) (char_not_surrogate c), hih, codeChar_toNat]
        rfl
      rw [if_neg h10]
      have hval := char_toNat_valid c
      have hup : c.toNat < 0x110000 := by
        rcases hval with h | ⟨ha, hb⟩ <;> omega
      simp only [List.cons_append, List.nil_append, List.append_assoc]
      rw [psF_astral f c.toNat (by omega) hup, hih, codeChar_toNat]
      rfl

/-!
Number-literal round trip.
-/

theorem char_toNat_ofNat {n : Nat} (h : n.isValidChar) : (Char.ofNat n).toNat = n := by
  simp [Char.ofNat, h]
  simp [Char.ofNatAux, Char.toNat]
  rfl

theorem take_eq_cons_head {cs : Str} {k : Nat} {x : Char} {xs : Str}
    (h : cs.take k = x :: xs) : cs.head? = some x := by
  cases cs with
  | nil => simp at h
  | cons a t =>
    cases k with
    | zero => simp at h
    | succ k =>
      rw [List.take_succ_cons] at h
      injection h with h1 h2
      simp [h1]

theorem take1_ne_of_head {rest : Str} {x : Char}
    (h : ∀ c, rest.head? = some c → ¬c = x) : ¬rest.take 1 = [x] := by
  intro heq
  exact h x (take_eq_cons_head heq) rfl

theorem takeWhile_all_append (p : Char → Bool) (l1 l2 : Str)
    (h1 : ∀ c ∈ l1, p c = true) (h2 : ∀ c, l2.head? = some c → p c = false) :
    (l1 ++ l2).takeWhile p = l1 := by
  induction l1 with
  | nil =>
    rw [List.nil_append]
    cases l2 with
    | nil => rfl
    | cons a t =>
      rw [List.takeWhile_cons_of_neg]
      simp [h2 a rfl]
  | cons a l1 ih =>
    rw [List.cons_append, List.takeWhile_cons_of_pos (h1 a (List.mem_cons_self _ _))]
    rw [ih (fun c hc => h1 c (List.mem_cons_of_mem _ hc))]

theorem natToDec_digits {n : Nat} {c : Char} (hc : c ∈ natToDec n) : isDigitChar c = true := by
  unfold natToDec at hc
  split at hc
  · simp at hc
    subst hc
    decide
  · rw [List.mem_reverse] at hc
    obtain ⟨d, hd, rfl⟩ := List.mem_map.mp hc
    have hlt : d < 10 := Nat.digits_lt_base (by norm_num) hd
    interval_cases d <;> decide

theorem natToDec_ne_nil (n : Nat) : natToDec n ≠ [] := by
  unfold natToDec
  split
  · simp
  · next h =>
    simp only [ne_eq, List.reverse_eq_nil_iff, List.map_eq_nil_iff]
    exact Nat.digits_ne_nil_iff_ne_zero.mpr h

theorem foldl_digits (L : List Nat) (hL : ∀ d ∈ L, d < 10) (acc : Nat) :
    List.foldl (fun a c => a * 10 + (c.toNat - '0'.toNat))
        acc ((L.map (fun d => Char.ofNat (48 + d))).reverse) =
      acc * 10 ^ L.length + Nat.ofDigits 10 L := by
  induction L generalizing acc with
  | nil => simp [Nat.ofDigits]
  | cons d L ih =>
    rw [List.map_cons, List.reverse_cons, List.foldl_append]
    rw [ih (fun x hx => hL x (List.mem_cons_of_mem _ hx)) acc]
    simp only [List.foldl_cons, List.foldl_nil]
    have hd : d < 10 := hL d (List.mem_cons_self _ _)
    have hch : (Char.ofNat (48 + d)).toNat = 48 + d :=
      char_toNat_ofNat (Or.inl (by omega))
    rw [hch]
    have h0 : ('0' : Char).toNat = 48 := rfl
    rw [h0, Nat.ofDigits_cons, List.length_cons, pow_succ]
    ring_nf
    omega

theorem digitsToNat_natToDec (n : Nat) : digitsToNat (natToDec n) = n := by
  unfold digitsToNat natToDec
  split
  · next h =>
    subst h
    decide
  · rw [foldl_digits _ (fun d hd => Nat.digits_lt_base (by norm_num) hd) 0]
    simp [Nat.ofDigits_digits]

theorem natToDec_head (n : Nat) :
    ∃ hd tl, natToDec n = hd :: tl ∧ isDigitChar hd = true ∧ (0 < n → ¬hd = '0') := by
  cases he : natToDec n with
  | nil => exact absurd he (natToDec_ne_nil n)
  | cons hd tl =>
    refine ⟨hd, tl, rfl, natToDec_digits (he ▸ List.mem_cons_self hd tl), ?_⟩
    intro hn hzero
    subst hzero
    have hne : n ≠ 0 := by omega
    have hdig : Nat.digits 10 n ≠ [] := Nat.digits_ne_nil_iff_ne_zero.mpr hne
    unfold natToDec at he
    rw [if_neg hne] at he
    have hhead : ((Nat.digits 10 n).map (fun d => Char.ofNat (48 + d))).reverse.head? = some '0' := by
      rw [he]
      rfl
    rw [List.head?_reverse] at hhead
    rw [List.getLast?_map] at hhead
    have hgl : (Nat.digits 10 n).getLast? = some ((Nat.digits 10 n).getLast hdig) :=
      List.getLast?_eq_getLast _ hdig
    rw [hgl] at hhead
    simp only [Option.map_some', Option.some.injEq] at hhead
    have hlast_ne : (Nat.digits 10 n).getLast hdig ≠ 0 := Nat.getLast_digit_ne_zero 10 hne
    have hlt : (Nat.digits 10 n).getLast hdig < 10 :=
      Nat.digits_lt_base (by norm_num) (List.getLast_mem hdig)
    have : (Char.ofNat (48 + (Nat.digits 10 n).getLast hdig)).toNat = ('0' : Char).toNat := by
      rw [hhead]
    rw [char_toNat_ofNat (Or.inl (by omega))] at this
    have h0 : ('0' : Char).toNat = 48 := rfl
    omega

/-- The characters that may legally follow a serialized int inside an
object or array (a separator or closer, never a digit, dot or exponent
letter). -/
def numBoundary (rest : Str) : Prop :=
  ∀ c, rest.head? = some c →
    isDigitChar c = false ∧ ¬c = '.' ∧ ¬c = 'e' ∧ ¬c = 'E' ∧ ¬c = '-'

theorem parseNumBody_nat (neg : Bool) (n : Nat) (rest : Str) (hrest : numBoundary rest) :
    parseNumBody neg (natToDec n ++ rest) =
      some (Json.int (if neg then -(Int.ofNat n) else Int.ofNat n), rest) := by
  obtain ⟨hd, tl, he, hdig, hzero⟩ := natToDec_head n
  have hfrac_ne : ¬rest.take 1 = ['.'] :=
    take1_ne_of_head (fun c hc => (hrest c hc).2.1)
  have hexp_ne : ¬(rest.take 1 = ['e'] ∨ rest.take 1 = ['E']) := by
    rintro (h | h)
    · exact take1_ne_of_head (fun c hc => (hrest c hc).2.2.1) h
    · exact take1_ne_of_head (fun c hc => (hrest c hc).2.2.2.1) h
  have hIntDs : (natToDec n ++ rest).takeWhile isDigitChar = natToDec n :=
    takeWhile_all_append _ _ _ (fun c hc => natToDec_digits hc)
      (fun c hc => (hrest c hc).1)
  unfold parseNumBody
  dsimp only
  by_cases hn : n = 0
  · subst hn
    have h0 : natToDec 0 ++ rest = '0' :: rest := rfl
    rw [h0]
    rw [if_pos (show List.take 1 ('0' :: rest) = ['0'] from rfl)]
    rw [if_neg (show ¬(['0'] : Str).isEmpty = true from by decide)]
    simp only [List.length_cons, List.length_nil, List.drop_succ_cons, List.drop_zero]
    rw [if_neg hfrac_ne]
    simp only [List.length_nil, List.drop_zero]
    rw [if_neg hexp_ne]
    simp only [List.length_nil, List.drop_zero]
    rw [if_pos ⟨rfl, rfl⟩]
    rfl
  · have hpos : 0 < n := by omega
    have hne0 : ¬(natToDec n ++ rest).take 1 = ['0'] := by
      rw [he, List.cons_append, List.take_succ_cons, List.take_zero]
      intro hcon
      injection hcon with hc1 hc2
      exact hzero hpos hc1
    rw [if_neg hne0, hIntDs]
    rw [if_neg (by simp [List.isEmpty_iff, natToDec_ne_nil n])]
    rw [List.drop_left]
    rw [if_neg hfrac_ne]
    simp only [List.length_nil, List.drop_zero]
    rw [if_neg hexp_ne]
    simp only [List.length_nil, List.drop_zero]
    rw [if_pos ⟨rfl, rfl⟩]
    rw [digitsToNat_natToDec]

theorem intToDec_head (i : Int) :
    ∃ hd tl, intToDec i ++ [] = hd :: tl ∧ (isDigitChar hd = true ∨ hd = '-') := by
  unfold intToDec
  split
  · exact ⟨'-', natToDec (-i).toNat ++ [], by simp, Or.inr rfl⟩
  · obtain ⟨hd, tl, he, hdig, _⟩ := natToDec_head i.toNat
    exact ⟨hd, tl ++ [], by simp [he], Or.inl hdig⟩

theorem parseNumberTok_int (i : Int) (rest : Str) (hrest : numBoundary rest) :
    parseNumberTok (intToDec i ++ rest) = some (Json.int i, rest) := by
  unfold parseNumberTok intToDec
  by_cases hneg : i < 0
  · rw [if_pos hneg]
    obtain ⟨hd, tl, he, hdig, _⟩ := natToDec_head (-i).toNat
    have hshape : ('-' :: natToDec (-i).toNat) ++ rest = '-' :: (natToDec (-i).toNat ++ rest) := by
      simp
    rw [hshape]
    rw [if_neg (by
      intro hcon
      have := take_eq_cons_head hcon
      simp at this)]
    rw [if_neg (by
      intro hcon
      have := take_eq_cons_head hcon
      simp at this)]
    rw [if_neg (by
      intro hcon
      rw [List.take_succ_cons] at hcon
      injection hcon with h1 h2
      rw [he, List.cons_append] at h2
      have h3 := take_eq_cons_head h2
      simp only [List.head?_cons, Option.some.injEq] at h3
      rw [h3] at hdig
      exact absurd hdig (by decide))]
    rw [if_pos (by rw [List.take_succ_cons, List.take_zero])]
    rw [List.drop_succ_cons, List.drop_zero]
    rw [parseNumBody_nat true (-i).toNat rest hrest]
    have : -(Int.ofNat (-i).toNat) = i := by
      simp only [Int.ofNat_eq_coe]
      omega
    rw [if_pos rfl, this]
  · rw [if_neg hneg]
    obtain ⟨hd, tl, he, hdig, _⟩ := natToDec_head i.toNat
    rw [he, List.cons_append]
    have hdnotdash : ¬hd = '-' := by
      intro hcon
      rw [hcon] at hdig
      exact absurd hdig (by decide)
    rw [if_neg (by
      intro hcon
      have h1 := take_eq_cons_head hcon
      simp only [List.head?_cons, Option.some.injEq] at h1
      rw [h1] at hdig
      exact absurd hdig (by decide))]
    rw [if_neg (by
      intro hcon
      have h1 := take_eq_cons_head hcon
      simp only [List.head?_cons, Option.some.injEq] at h1
      rw [h1] at hdig
      exact absurd hdig (by decide))]
    rw [if_neg (by
      intro hcon
      have h1 := take_eq_cons_head hcon
      simp only [List.head?_cons, Option.some.injEq] at h1
      exact hdnotdash h1)]
    rw [if_neg (by
      intro hcon
      have h1 := take_eq_cons_head hcon
      simp only [List.head?_cons, Option.some.injEq] at h1
      exact hdnotdash h1)]
    rw [← List.cons_append, ← he]
    rw [parseNumBody_nat false i.toNat rest hrest]
    have : Int.ofNat i.toNat = i := by
      simp only [Int.ofNat_eq_coe]
      omega
    rw [if_neg (by simp), this]

theorem parseStringBody_dump (k : Str) (rest : Str) :
    parseStringBody (escString k ++ ('\"' :: rest)) = some (k, rest) := by
  unfold parseStringBody
  exact parseSB_escString k rest _ (by rw [List.length_append]; simp_arith)

theorem intToDec_headChar (i : Int) :
    ∃ hd tl, intToDec i = hd :: tl ∧ (isDigitChar hd = true ∨ hd = '-') := by
  unfold intToDec
  split
  · exact ⟨'-', natToDec (-i).toNat, rfl, Or.inr rfl⟩
  · obtain ⟨hd, tl, he, hdig, _⟩ := natToDec_head i.toNat
    exact ⟨hd, tl, he, Or.inl hdig⟩

theorem parseValue_dumpVal (f : Nat) (v : PyVal) (rest : Str) (hrest : numBoundary rest) :
    parseValue (f + 1) (dumpVal v ++ rest) = some (v.toJson, rest) := by
  cases v with
  | s s =>
    have hshape : dumpVal (PyVal.s s) ++ rest = '\"' :: (escString s ++ ('\"' :: rest)) := by
      show ('\"' :: (escString s ++ ['\"'])) ++ rest = '\"' :: (escString s ++ ('\"' :: rest))
      simp
    rw [hshape]
    rw [parseValue.eq_def]
    dsimp only
    rw [if_neg (by rw [List.take_succ_cons, List.take_zero]; decide)]
    rw [if_neg (by rw [List.take_succ_cons, List.take_zero]; decide)]
    rw [if_pos (by rw [List.take_succ_cons, List.take_zero])]
    rw [List.drop_succ_cons, List.drop_zero]
    rw [parseStringBody_dump]
    rfl
  | i n =>
    obtain ⟨hd, tl, he, hopt⟩ := intToDec_headChar n
    have hshape : dumpVal (PyVal.i n) ++ rest = hd :: (tl ++ rest) := by
      show intToDec n ++ rest = hd :: (tl ++ rest)
      rw [he, List.cons_append]
    rw [hshape]
    rw [parseValue.eq_def]
    dsimp only
    rw [if_neg (by
      intro hcon
      have h1 := take_eq_cons_head hcon
      simp only [List.head?_cons, Option.some.injEq] at h1
      subst h1
      rcases hopt with hdig | hdash
      · exact absurd hdig (by decide)
      · exact absurd hdash (by decide))]
    rw [if_neg (by
      intro hcon
      have h1 := take_eq_cons_head hcon
      simp only [List.head?_cons, Option.some.injEq] at h1
      subst h1
      rcases hopt with hdig | hdash
      · exact absurd hdig (by decide)
      · exact absurd hdash (by decide))]
    rw [if_neg (by
      intro hcon
      have h1 := take_eq_cons_head hcon
      simp only [List.head?_cons, Option.some.injEq] at h1
      subst h1
      rcases hopt with hdig | hdash
      · exact absurd hdig (by decide)
      · exact absurd hdash (by decide))]
    rw [if_neg (by
      intro hcon
      have h1 := take_eq_cons_head hcon
      simp only [List.head?_cons, Option.some.injEq] at h1
      subst h1
      rcases hopt with hdig | hdash
      · exact absurd hdig (by decide)
      · exact absurd hdash (by decide))]
    rw [if_neg (by
      intro hcon
      have h1 := take_eq_cons_head hcon
      simp only [List.head?_cons, Option.some.injEq] at h1
      subst h1
      rcases hopt with hdig | hdash
      · exact absurd hdig (by decide)
      · exact absurd hdash (by decide))]
    rw [if_neg (by
      intro hcon
      have h1 := take_eq_cons_head hcon
      simp only [List.head?_cons, Option.some.injEq] at h1
      subst h1
      rcases hopt with hdig | hdash
      · exact absurd hdig (by decide)
      · exact absurd hdash (by decide))]
    rw [← List.cons_append, ← he]
    rw [parseNumberTok_int n rest hrest]
    rfl

theorem isJsonWs_of_digit {c : Char} (h : isDigitChar c = true) : isJsonWs c = false := by
  have h1 : 48 ≤ c.toNat ∧ c.toNat ≤ 57 := by
    simpa [isDigitChar] using h
  simp only [isJsonWs, Bool.or_eq_false_iff, beq_eq_false_iff_ne, ne_eq]
  omega

theorem dropWhile_ws_dumpVal (v : PyVal) (X : Str) :
    (dumpVal v ++ X).dropWhile isJsonWs = dumpVal v ++ X := by
  cases v with
  | s s =>
    have hshape : dumpVal (PyVal.s s) ++ X = '\"' :: (escString s ++ ('\"' :: X)) := by
      show ('\"' :: (escString s ++ ['\"'])) ++ X = '\"' :: (escString s ++ ('\"' :: X))
      simp
    rw [hshape, List.dropWhile_cons_of_neg (by decide)]
  | i n =>
    obtain ⟨hd, tl, he, hopt⟩ := intToDec_headChar n
    have hshape : dumpVal (PyVal.i n) ++ X = hd :: (tl ++ X) := by
      show intToDec n ++ X = hd :: (tl ++ X)
      rw [he, List.cons_append]
    rw [hshape, List.dropWhile_cons_of_neg]
    rcases hopt with hdig | hdash
    · simp [isJsonWs_of_digit hdig]
    · subst hdash; decide

theorem dumpStr_shape (k : Str) (X : Str) :
    dumpStr k ++ X = '\"' :: (escString k ++ ('\"' :: X)) := by
  show ('\"' :: (escString k ++ ['\"'])) ++ X = '\"' :: (escString k ++ ('\"' :: X))
  simp

theorem dumpPairs_cons_shape (k : Str) (v : PyVal) (ps : List (Str × PyVal)) :
    ∃ t, dumpPairs ((k, v) :: ps) = '\"' :: t := by
  cases ps with
  | nil =>
    refine ⟨escString k ++ ('\"' :: (':' :: ' ' :: dumpVal v)), ?_⟩
    show dumpStr k ++ (':' :: ' ' :: dumpVal v) = _
    rw [dumpStr_shape]
  | cons q qs =>
    refine ⟨escString k ++ ('\"' :: ((':' :: ' ' :: dumpVal v) ++ (',' :: ' ' :: dumpPairs (q :: qs)))), ?_⟩
    show dumpStr k ++ (':' :: ' ' :: dumpVal v) ++ (',' :: ' ' :: dumpPairs (q :: qs)) = _
    rw [List.append_assoc, dumpStr_shape]

theorem parseMembers_dump (ps : List (Str × PyVal)) :
    ∀ (fuel : Nat) (acc : List (Str × Json)) (rest : Str), ps ≠ [] → ps.length < fuel →
    parseMembers fuel (dumpPairs ps ++ ('\x7d' :: rest)) acc =
      some (Json.obj (ps.foldl (fun a p => dictInsert a p.1 p.2.toJson) acc), rest) := by
  induction ps with
  | nil => intro _ _ _ hne _; exact absurd rfl hne
  | cons p ps ih =>
    intro fuel acc rest _ hfuel
    obtain ⟨k, v⟩ := p
    cases fuel with
    | zero => omega
    | succ f =>
    cases ps with
    | nil =>
      have hshape : dumpPairs [(k, v)] ++ ('\x7d' :: rest) =
          '\"' :: (escString k ++ ('\"' :: (':' :: ' ' :: (dumpVal v ++ ('\x7d' :: rest))))) := by
        show (dumpStr k ++ (':' :: ' ' :: dumpVal v)) ++ ('\x7d' :: rest) = _
        rw [List.append_assoc, dumpStr_shape]
        simp
      rw [hshape]
      rw [parseMembers.eq_def]
      dsimp only
      rw [if_pos (by rw [List.take_succ_cons, List.take_zero])]
      rw [List.drop_succ_cons, List.drop_zero]
      rw [parseStringBody_dump]
      dsimp only
      rw [List.dropWhile_cons_of_neg (by decide)]
      rw [if_pos (by rw [List.take_succ_cons, List.take_zero])]
      rw [List.drop_succ_cons, List.drop_zero]
      rw [List.dropWhile_cons_of_pos (by decide)]
      rw [dropWhile_ws_dumpVal]
      cases f with
      | zero => simp only [List.length_cons, List.length_nil] at hfuel; omega
      | succ f2 =>
        rw [parseValue_dumpVal f2 v ('\x7d' :: rest)
          (by intro c hc; simp only [List.head?_cons, Option.some.injEq] at hc; subst hc; decide)]
        dsimp only
        rw [List.dropWhile_cons_of_neg (by decide)]
        rw [if_neg (by rw [List.take_succ_cons, List.take_zero]; decide)]
        rw [if_pos (by rw [List.take_succ_cons, List.take_zero])]
        rw [List.drop_succ_cons, List.drop_zero]
        rfl
    | cons q qs =>
      have hshape : dumpPairs ((k, v) :: q :: qs) ++ ('\x7d' :: rest) =
          '\"' :: (escString k ++ ('\"' :: (':' :: ' ' ::
            (dumpVal v ++ (',' :: ' ' :: (dumpPairs (q :: qs) ++ ('\x7d' :: rest))))))) := by
        show (dumpStr k ++ (':' :: ' ' :: dumpVal v) ++ (',' :: ' ' :: dumpPairs (q :: qs))) ++ ('\x7d' :: rest) = _
        rw [List.append_assoc, List.append_assoc, dumpStr_shape]
        simp
      rw [hshape]
      rw [parseMembers.eq_def]
      dsimp only
      rw [if_pos (by rw [List.take_succ_cons, List.take_zero])]
      rw [List.drop_succ_cons, List.drop_zero]
      rw [parseStringBody_dump]
      dsimp only
      rw [List.dropWhile_cons_of_neg (by decide)]
      rw [if_pos (by rw [List.take_succ_cons, List.take_zero])]
      rw [List.drop_succ_cons, List.drop_zero]
      rw [List.dropWhile_cons_of_pos (by decide)]
      rw [dropWhile_ws_dumpVal]
      cases f with
      | zero => simp only [List.length_cons, List.length_nil] at hfuel; omega
      | succ f2 =>
        rw [parseValue_dumpVal f2 v (',' :: ' ' :: (dumpPairs (q :: qs) ++ ('\x7d' :: rest)))
          (by intro c hc; simp only [List.head?_cons, Option.some.injEq] at hc; subst hc; decide)]
        dsimp only
        rw [List.dropWhile_cons_of_neg (by decide)]
        rw [if_pos (by rw [List.take_succ_cons, List.take_zero])]
        rw [List.drop_succ_cons, List.drop_zero]
        rw [List.dropWhile_cons_of_pos (by decide)]
        obtain ⟨t, ht⟩ := dumpPairs_cons_shape q.1 q.2 qs
        have hdw : (dumpPairs (q :: qs) ++ ('\x7d' :: rest)).dropWhile isJsonWs =
            dumpPairs (q :: qs) ++ ('\x7d' :: rest) := by
          rw [show (q.1, q.2) = q from rfl] at ht
          rw [ht, List.cons_append, List.dropWhile_cons_of_neg (by decide)]
        rw [hdw]
        rw [ih (f2 + 1) (dictInsert acc k v.toJson) rest (by simp) (by
          simp only [List.length_cons] at hfuel ⊢
          omega)]
        simp only [List.foldl_cons]

theorem dumpPairs_length_ge (ps : List (Str × PyVal)) : ps.length ≤ (dumpPairs ps).length := by
  induction ps with
  | nil => simp [dumpPairs]
  | cons p ps ih =>
    obtain ⟨k, v⟩ := p
    cases ps with
    | nil =>
      show 1 ≤ (dumpStr k ++ (':' :: ' ' :: dumpVal v)).length
      simp [dumpStr]
    | cons q qs =>
      show (q :: qs).length + 1 ≤
        (dumpStr k ++ (':' :: ' ' :: dumpVal v) ++ (',' :: ' ' :: dumpPairs (q :: qs))).length
      simp only [List.length_append, List.length_cons] at ih ⊢
      omega

theorem loads_dumpsDict (d : List (Str × PyVal)) :
    loads (dumpsDict d) =
      some (Json.obj (d.foldl (fun a p => dictInsert a p.1 p.2.toJson) [])) := by
  cases d with
  | nil => rfl
  | cons p ps =>
    obtain ⟨k, v⟩ := p
    have hdw : (dumpsDict ((k, v) :: ps)).dropWhile isJsonWs = dumpsDict ((k, v) :: ps) := by
      show (('\x7b' :: (dumpPairs ((k, v) :: ps) ++ ['\x7d'])).dropWhile isJsonWs) = _
      rw [List.dropWhile_cons_of_neg (by decide)]
      rfl
    obtain ⟨t, ht⟩ := dumpPairs_cons_shape k v ps
    have hshape : dumpPairs ((k, v) :: ps) ++ ['\x7d'] = '\"' :: (t ++ ['\x7d']) := by
      rw [ht, List.cons_append]
    have hpv : parseValue ((dumpsDict ((k, v) :: ps)).length + 1) (dumpsDict ((k, v) :: ps)) =
        some (Json.obj (((k, v) :: ps).foldl (fun a p => dictInsert a p.1 p.2.toJson) []), []) := by
      show parseValue _ ('\x7b' :: (dumpPairs ((k, v) :: ps) ++ ['\x7d'])) = _
      rw [parseValue.eq_def]
      dsimp only
      rw [if_pos (by rw [List.take_succ_cons, List.take_zero])]
      rw [List.drop_succ_cons, List.drop_zero]
      rw [show (dumpsDict ((k, v) :: ps)).length
            = (dumpPairs ((k, v) :: ps) ++ ['\x7d']).length + 1 from by
        rw [dumpsDict, List.length_cons]]
      rw [parseObjBody.eq_def]
      dsimp only
      rw [show (dumpPairs ((k, v) :: ps) ++ ['\x7d']).dropWhile isJsonWs
            = dumpPairs ((k, v) :: ps) ++ ['\x7d'] from by
        rw [hshape, List.dropWhile_cons_of_neg (by decide), ← hshape]]
      rw [if_neg (by rw [hshape, List.take_succ_cons, List.take_zero]; decide)]
      have hlt : ((k, v) :: ps).length < (dumpPairs ((k, v) :: ps) ++ ['\x7d']).length := by
        have hge := dumpPairs_length_ge ((k, v) :: ps)
        simp only [List.length_append, List.length_cons, List.length_nil] at hge ⊢
        omega
      rw [parseMembers_dump ((k, v) :: ps) ((dumpPairs ((k, v) :: ps) ++ ['\x7d']).length)
        [] [] (by simp) hlt]
    unfold loads
    rw [hdw, hpv]
    rfl

theorem dictInsert_fresh (acc : List (Str × Json)) (k : Str) (v : Json)
    (hk : k ∉ acc.map Prod.fst) : dictInsert acc k v = acc ++ [(k, v)] := by
  induction acc with
  | nil => rfl
  | cons p rest ih =>
    obtain ⟨k0, v0⟩ := p
    simp only [List.map_cons, List.mem_cons, not_or] at hk
    rw [dictInsert, if_neg (fun he => hk.1 he.symm), ih hk.2, List.cons_append]

theorem foldl_dictInsert_fresh (d : List (Str × PyVal)) :
    ∀ (acc : List (Str × Json)),
    (d.map Prod.fst).Nodup → (∀ x ∈ d.map Prod.fst, x ∉ acc.map Prod.fst) →
    d.foldl (fun a p => dictInsert a p.1 p.2.toJson) acc =
      acc ++ d.map (fun p => (p.1, p.2.toJson)) := by
  induction d with
  | nil => intro acc _ _; simp
  | cons p ps ih =>
    intro acc hnd hdis
    obtain ⟨k, v⟩ := p
    simp only [List.map_cons, List.nodup_cons] at hnd
    rw [List.foldl_cons]
    have hkacc : k ∉ acc.map Prod.fst :=
      hdis k (by rw [List.map_cons]; exact List.mem_cons_self _ _)
    dsimp only
    rw [dictInsert_fresh acc k v.toJson hkacc]
    rw [ih (acc ++ [(k, v.toJson)]) hnd.2 ?_]
    · simp
    · intro x hx
      simp only [List.map_append, List.mem_append, List.map_cons, List.map_nil,
        List.mem_singleton, not_or]
      exact ⟨fun hc => hdis x (by simp [hx]) hc, fun he => hnd.1 (he ▸ hx)⟩

theorem getLast?_mem_str (l : Str) (c : Char) (h : l.getLast? = some c) : c ∈ l := by
  induction l with
  | nil => simp at h
  | cons a t ih =>
    cases t with
    | nil =>
      simp only [List.getLast?_singleton, Option.some.injEq] at h
      simp [h]
    | cons b u =>
      rw [List.getLast?_cons_cons] at h
      exact List.mem_cons_of_mem a (ih h)

theorem dropWhile_ne_nil_of_last (l : Str) (c : Char)
    (h : l.getLast? = some c) (hw : isPyWs c = false) :
    l.dropWhile isPyWs ≠ [] := by
  intro hnil
  have hall := List.dropWhile_eq_nil_iff.mp hnil
  have hmem : c ∈ l := getLast?_mem_str l c h
  rw [hall c hmem] at hw
  exact absurd hw (by decide)

theorem fenceCloseOk_false (S : Str) (hb : hasTripleBacktick S = false)
    (hnw : S.dropWhile isPyWs ≠ []) :
    fenceCloseOk (S ++ ('\n' :: lit "```")) = false := by
  induction S with
  | nil => exact absurd rfl hnw
  | cons c rest ih =>
    rw [List.cons_append, fenceCloseOk.eq_def]
    dsimp only
    by_cases hc : c = '`'
    · rw [if_pos hc]
      have hcond : ¬((rest ++ ('\n' :: lit "```")).take 2 = ['`', '`']) := by
        intro h
        cases rest with
        | nil => exact absurd h (by decide)
        | cons c2 rest2 =>
          cases rest2 with
          | nil =>
            have h2 : ((c2 :: []) ++ ('\n' :: lit "```")).take 2 = [c2, '\n'] := rfl
            rw [h2] at h
            injection h with h3 h4
            injection h4 with h5 _
            exact absurd h5 (by decide)
          | cons c3 rest3 =>
            have h2 : ((c2 :: c3 :: rest3) ++ ('\n' :: lit "```")).take 2 = [c2, c3] := rfl
            rw [h2] at h
            injection h with h3 h4
            injection h4 with h5 _
            subst h3; subst h5; subst hc
            rw [hasTripleBacktick.eq_def] at hb
            dsimp only at hb
            rw [if_pos (show List.take 3 ('`' :: '`' :: '`' :: rest3) = lit "```" from rfl)] at hb
            exact absurd hb (by decide)
      rw [if_neg hcond]
    · rw [if_neg hc]
      by_cases hw : isPyWs c = true
      · rw [if_pos hw]
        have hb2 : hasTripleBacktick rest = false := by
          rw [hasTripleBacktick.eq_def] at hb
          dsimp only at hb
          rw [if_neg ?_] at hb
          · exact hb
          · intro h
            rw [List.take_succ_cons] at h
            injection h with h1 _
            exact hc h1
        have hnw2 : rest.dropWhile isPyWs ≠ [] := by
          rw [List.dropWhile_cons_of_pos hw] at hnw
          exact hnw
        exact ih hb2 hnw2
      · rw [if_neg hw]

theorem fenceGroup_dump (E : Str) :
    ∀ (c : Char), hasTripleBacktick E = false →
    E.getLast? = some c → isPyWs c = false →
    fenceGroup (E ++ ('\n' :: lit "```")) = some E := by
  induction E with
  | nil => intro c _ hlast _; simp at hlast
  | cons c0 rest ih =>
    intro c hb hlast hcw
    have hfc : fenceCloseOk ((c0 :: rest) ++ ('\n' :: lit "```")) = false :=
      fenceCloseOk_false (c0 :: rest) hb
        (dropWhile_ne_nil_of_last (c0 :: rest) c hlast hcw)
    rw [List.cons_append] at hfc
    rw [List.cons_append, fenceGroup.eq_def]
    dsimp only
    rw [if_neg (by rw [hfc]; exact Bool.false_ne_true)]
    cases rest with
    | nil => rfl
    | cons c1 rest1 =>
      have hlast2 : (c1 :: rest1).getLast? = some c := by
        rw [← List.getLast?_cons_cons]
        exact hlast
      have hb2 : hasTripleBacktick (c1 :: rest1) = false := by
        rw [hasTripleBacktick.eq_def] at hb
        dsimp only at hb
        by_cases hcond : List.take 3 (c0 :: c1 :: rest1) = lit "```"
        · rw [if_pos hcond] at hb
          exact absurd hb (by decide)
        · rw [if_neg hcond] at hb
          exact hb
      rw [ih c hb2 hlast2 hcw]
      rfl

theorem dumpsDict_getLast (d : List (Str × PyVal)) :
    (dumpsDict d).getLast? = some '\x7d' := by
  show ('\x7b' :: (dumpPairs d ++ ['\x7d'])).getLast? = some '\x7d'
  rw [show '\x7b' :: (dumpPairs d ++ ['\x7d'])
        = ('\x7b' :: dumpPairs d) ++ ['\x7d'] from (List.cons_append _ _ _).symm]
  exact List.getLast?_concat _

theorem fenceMatchAt_fence (d : List (Str × PyVal))
    (hb : hasTripleBacktick (dumpsDict d) = false) :
    fenceMatchAt ('`' :: '`' :: '`' :: ('j' :: 's' :: 'o' :: 'n' ::
      ('\n' :: (dumpsDict d ++ ('\n' :: lit "```"))))) = some (dumpsDict d) := by
  rw [fenceMatchAt.eq_def]
  dsimp only
  rw [if_pos (show List.take 3 ('`' :: '`' :: '`' :: ('j' :: 's' :: 'o' :: 'n' ::
    ('\n' :: (dumpsDict d ++ ('\n' :: lit "```"))))) = lit "```" from rfl)]
  rw [show List.drop 3 ('`' :: '`' :: '`' :: ('j' :: 's' :: 'o' :: 'n' ::
    ('\n' :: (dumpsDict d ++ ('\n' :: lit "```")))))
      = 'j' :: 's' :: 'o' :: 'n' :: ('\n' :: (dumpsDict d ++ ('\n' :: lit "```"))) from rfl]
  rw [if_pos (show List.take 4 ('j' :: 's' :: 'o' :: 'n' ::
    ('\n' :: (dumpsDict d ++ ('\n' :: lit "```")))) = lit "json" from rfl)]
  rw [show List.drop 4 ('j' :: 's' :: 'o' :: 'n' :: ('\n' :: (dumpsDict d ++ ('\n' :: lit "```"))))
      = '\n' :: (dumpsDict d ++ ('\n' :: lit "```")) from rfl]
  rw [List.dropWhile_cons_of_pos (by decide)]
  rw [show (dumpsDict d ++ ('\n' :: lit "```")).dropWhile isPyWs
        = dumpsDict d ++ ('\n' :: lit "```") from by
    show (('\x7b' :: (dumpPairs d ++ ['\x7d'])) ++ ('\n' :: lit "```")).dropWhile isPyWs = _
    rw [List.cons_append, List.dropWhile_cons_of_neg (by decide)]
    rfl]
  exact fenceGroup_dump (dumpsDict d) '\x7d' hb (dumpsDict_getLast d) (by decide)

theorem fenceMatchAt_cons_ne (c : Char) (cs : Str) (hc : c ≠ '`') :
    fenceMatchAt (c :: cs) = none := by
  rw [fenceMatchAt.eq_def]
  dsimp only
  rw [if_neg ?_]
  intro h
  rw [List.take_succ_cons] at h
  injection h with h1 _
  exact hc h1

theorem fenceSearch_cons_ne (c : Char) (cs : Str) (hc : c ≠ '`') :
    fenceSearch (c :: cs) = fenceSearch cs := by
  rw [fenceSearch.eq_def]
  dsimp only
  rw [fenceMatchAt_cons_ne c cs hc]

theorem fenceSearch_skip (P : Str) (cs : Str) (hP : ∀ c ∈ P, c ≠ '`') :
    fenceSearch (P ++ cs) = fenceSearch cs := by
  induction P with
  | nil => rfl
  | cons c rest ih =>
    rw [List.cons_append, fenceSearch_cons_ne c _ (hP c (List.mem_cons_self _ _))]
    exact ih (fun x hx => hP x (List.mem_cons_of_mem c hx))

theorem pyStrip_dumpsDict (d : List (Str × PyVal)) : pyStrip (dumpsDict d) = dumpsDict d := by
  unfold pyStrip
  have hl : ltrim (dumpsDict d) = dumpsDict d := by
    unfold ltrim
    apply dropWhile_of_head_not
    intro c hc
    rw [show (dumpsDict d).head? = some '\x7b' from rfl] at hc
    injection hc with h1
    rw [← h1]; decide
  rw [hl]
  unfold rtrim
  rw [dropWhile_of_head_not isPyWs (dumpsDict d).reverse ?_, List.reverse_reverse]
  intro c hc
  rw [List.head?_reverse, dumpsDict_getLast d] at hc
  injection hc with h1
  rw [← h1]; decide

theorem pyStrip_embed_take1 (d : List (Str × PyVal)) :
    (pyStrip (embedProse d)).take 1 ≠ ['\x7b'] := by
  intro h
  have hh : (pyStrip (embedProse d)).head? = some '\x7b' := by
    cases hc : pyStrip (embedProse d) with
    | nil => rw [hc] at h; exact absurd h (by decide)
    | cons a t =>
      rw [hc, List.take_succ_cons, List.take_zero] at h
      injection h with h1 _
      rw [h1]
      rfl
  rw [pyStrip] at hh
  have hh2 := rtrim_head _ hh
  rw [ltrim] at hh2
  rw [dropWhile_of_head_not isPyWs (embedProse d) ?_] at hh2
  · rw [show (embedProse d).head? = some 'H' from rfl] at hh2
    injection hh2 with h1
    exact absurd h1 (by decide)
  · intro c hc2
    rw [show (embedProse d).head? = some 'H' from rfl] at hc2
    injection hc2 with h1
    rw [← h1]; decide

theorem fenceSearch_embed (d : List (Str × PyVal))
    (hb : hasTripleBacktick (dumpsDict d) = false) :
    fenceSearch (embedProse d) = some (dumpsDict d) := by
  show fenceSearch (lit "Here is the result: " ++
    ('`' :: '`' :: '`' :: ('j' :: 's' :: 'o' :: 'n' ::
      ('\n' :: (dumpsDict d ++ ('\n' :: lit "```")))))) = _
  rw [fenceSearch_skip (lit "Here is the result: ") _ (by decide)]
  rw [fenceSearch.eq_def]
  dsimp only
  rw [fenceMatchAt_fence d hb]

/-- C3: extractor round trip, corrected.  For every string/int-valued dict
(association list with distinct keys) whose serialized JSON body contains
no triple backtick, serializing with `json.dumps`, embedding in the prose
`Here is the result: ```json\n...\n``` `, and extracting recovers exactly
the original dict.  The no-triple-backtick hypothesis is necessary: see
the counterexample, where a value containing ``` ` ``` three times makes
the fenced-block regex close the group early and extraction raises. -/
theorem extract_json_roundtrip (d : List (Str × PyVal))
    (hnd : (d.map Prod.fst).Nodup)
    (hb : hasTripleBacktick (dumpsDict d) = false) :
    extract_json (embedProse d) =
      Except.ok (Json.obj (d.map (fun p => (p.1, p.2.toJson)))) := by
  unfold extract_json
  dsimp only
  rw [if_neg (pyStrip_embed_take1 d)]
  rw [fenceSearch_embed d hb]
  dsimp only
  rw [pyStrip_dumpsDict]
  unfold parse_first_object
  dsimp only
  rw [pyStrip_dumpsDict, loads_dumpsDict]
  dsimp only
  rw [foldl_dictInsert_fresh d [] hnd (fun x _ => List.not_mem_nil x)]
  rw [List.nil_append]

/-- C3 counterexample: for the dict `\x7b"k": "```"\x7d`, whose value
contains a triple backtick, the prose-embedded response makes
`_JSON_BLOCK_RE` close the non-greedy group at the backticks inside the
string value, the captured fragment fails every parse tier, and
`_extract_json` raises instead of recovering the dict. -/
theorem extract_json_roundtrip_cex :
    extract_json (embedProse [(lit "k", PyVal.s (lit "```"))]) =
      Except.error (lit "Could not parse JSON object from: \x7b\"k\": \"") := by
  rfl

theorem extract_json_roundtrip_witness :
    ((([(lit "k", PyVal.s (lit "v")), (lit "n", PyVal.i 3)]).map Prod.fst).Nodup ∧
      hasTripleBacktick (dumpsDict [(lit "k", PyVal.s (lit "v")), (lit "n", PyVal.i 3)]) = false) ∧
    extract_json (embedProse [(lit "k", PyVal.s (lit "v")), (lit "n", PyVal.i 3)]) =
      Except.ok (Json.obj [(lit "k", Json.str (lit "v")), (lit "n", Json.int 3)]) := by
  have hi : intToDec 3 = ['3'] := by
    rw [intToDec, if_neg (by decide)]
    show natToDec 3 = ['3']
    rw [natToDec, if_neg (by decide)]
    rw [Nat.digits_def' (by norm_num : (1 : Nat) < 10) (by norm_num : 0 < 3)]
    norm_num
  have hd : dumpsDict [(lit "k", PyVal.s (lit "v")), (lit "n", PyVal.i 3)]
      = lit "\x7b\"k\": \"v\", \"n\": 3\x7d" := by
    show '\x7b' :: ((dumpStr (lit "k") ++ (':' :: ' ' :: dumpVal (PyVal.s (lit "v")))
        ++ (',' :: ' ' :: (dumpStr (lit "n") ++ (':' :: ' ' :: dumpVal (PyVal.i 3))))) ++ ['\x7d']) = _
    rw [show dumpVal (PyVal.i 3) = intToDec 3 from rfl, hi]
    decide
  refine ⟨⟨by decide, by rw [hd]; decide⟩, ?_⟩
  rw [extract_json_roundtrip _ (by decide) (by rw [hd]; decide)]
  rfl

/-!
Judge-result construction (`judge_instruction_adherence` /
`judge_agent_process` in judge.py): after extraction,
`scores = \x7bd: int(raw.get(d, 0)) for d in dimensions\x7d`,
`total = sum(scores.values())`, `max_total = 5 * len(dimensions)`,
`reasoning = str(raw.get("reasoning", ""))`.
-/

/-- Separator-joined concatenation (Python `", ".join`). -/
def joinComma : List Str → Str
  | [] => []
  | [x] => x
  | x :: rest => x ++ (',' :: ' ' :: joinComma rest)

/-- Python `repr` of a `json.loads` value, fuel-bounded on nesting depth.
Simplifications that no claim exercises: string repr always uses single
quotes and does not escape characters inside the string; float repr
returns the stored literal. -/
def pyReprF : Nat → Json → Str
  | 0, _ => []
  | fuel + 1, v =>
    match v with
    | Json.null => lit "None"
    | Json.bool b => if b then lit "True" else lit "False"
    | Json.int n => intToDec n
    | Json.floatLit s => s
    | Json.str s => '\'' :: (s ++ ['\''])
    | Json.arr xs => '[' :: (joinComma (xs.map (pyReprF fuel)) ++ [']'])
    | Json.obj ms =>
      '\x7b' :: (joinComma (ms.map (fun p =>
        pyReprF fuel (Json.str p.1) ++ (':' :: ' ' :: pyReprF fuel p.2))) ++ ['\x7d'])

mutual

/-- Nesting depth of a value, the fuel bound for `pyReprF`. -/
def jsonDepth : Json → Nat
  | Json.null => 1
  | Json.bool _ => 1
  | Json.int _ => 1
  | Json.floatLit _ => 1
  | Json.str _ => 1
  | Json.arr xs => jsonDepthL xs + 1
  | Json.obj ms => jsonDepthP ms + 1

def jsonDepthL : List Json → Nat
  | [] => 0
  | x :: rest => max (jsonDepth x) (jsonDepthL rest)

def jsonDepthP : List (Str × Json) → Nat
  | [] => 0
  | p :: rest => max (jsonDepth p.2) (jsonDepthP rest)

end

/-- Python `str(v)` for a `json.loads` value: identity on strings,
`repr` otherwise. -/
def pyStrOf (v : Json) : Str :=
  match v with
  | Json.str s => s
  | v => pyReprF (jsonDepth v) v

/-- Python `int(s)` on a string: strip, optional sign, decimal digits. -/
def pyIntOfStr (s : Str) : Except Str Int :=
  let t := pyStrip s
  let neg := t.take 1 = ['-']
  let t1 := if t.take 1 = ['-'] ∨ t.take 1 = ['+'] then t.drop 1 else t
  if t1 ≠ [] ∧ t1.all isDigitChar then
    let n : Int := Int.ofNat (digitsToNat t1)
    Except.ok (if neg then -n else n)
  else
    Except.error (lit "invalid literal for int() with base 10: " ++ s)

/-- Truncation toward zero of a JSON float literal (Python `int(float)`):
the literal is `[-]I[.F][(e|E)[+|-]X]` and the result is
`sign * floor(IF * 10 ^ (X - |F|))` in magnitude. -/
def floatTrunc (s : Str) : Int :=
  let neg := s.take 1 = ['-']
  let s1 := if neg then s.drop 1 else s
  let I := s1.takeWhile isDigitChar
  let r := s1.drop I.length
  let F := if r.take 1 = ['.'] then (r.drop 1).takeWhile isDigitChar else []
  let r2 := if r.take 1 = ['.'] then r.drop (1 + F.length) else r
  let E : Int :=
    if r2.take 1 = ['e'] ∨ r2.take 1 = ['E'] then
      let e1 := r2.drop 1
      let eneg := e1.take 1 = ['-']
      let e2 := if e1.take 1 = ['-'] ∨ e1.take 1 = ['+'] then e1.drop 1 else e1
      let m : Int := Int.ofNat (digitsToNat (e2.takeWhile isDigitChar))
      if eneg then -m else m
    else 0
  let N := digitsToNat (I ++ F)
  let scale : Int := Int.ofNat F.length
  let mag : Nat := if scale ≤ E then N * 10 ^ (E - scale).toNat else N / 10 ^ (scale - E).toNat
  if neg then -(Int.ofNat mag) else Int.ofNat mag

/-- Python `int(v)` for a `json.loads` value: ints pass through, bools
coerce, floats truncate toward zero, numeric strings parse; `None`,
lists and dicts raise `TypeError`. -/
def pyInt (v : Json) : Except Str Int :=
  match v with
  | Json.int n => Except.ok n
  | Json.bool b => Except.ok (if b then 1 else 0)
  | Json.floatLit s => Except.ok (floatTrunc s)
  | Json.str s => pyIntOfStr s
  | Json.null => Except.error
      (lit "int() argument must be a string, a bytes-like object or a real number, not 'NoneType'")
  | Json.arr _ => Except.error
      (lit "int() argument must be a string, a bytes-like object or a real number, not 'list'")
  | Json.obj _ => Except.error
      (lit "int() argument must be a string, a bytes-like object or a real number, not 'dict'")

/-- Python dict assignment for int-valued dicts (same semantics as
`dictInsert`). -/
def dictInsertI (d : List (Str × Int)) (k : Str) (v : Int) : List (Str × Int) :=
  match d with
  | [] => [(k, v)]
  | (k0, v0) :: rest => if k0 = k then (k0, v) :: rest else (k0, v0) :: dictInsertI rest k v

/-- The dict comprehension `\x7bd: int(raw.get(d, 0)) for d in dims\x7d`,
iterating `dims` in order with an accumulated dict; `int()` raising
aborts the comprehension. -/
def judgeScoresGo (raw : List (Str × Json)) (acc : List (Str × Int)) :
    List Str → Except Str (List (Str × Int))
  | [] => Except.ok acc
  | d :: rest =>
    match pyInt (dictGet raw d (Json.int 0)) with
    | Except.error e => Except.error e
    | Except.ok n => judgeScoresGo raw (dictInsertI acc d n) rest

def judgeScores (raw : List (Str × Json)) (dims : List Str) : Except Str (List (Str × Int)) :=
  judgeScoresGo raw [] dims

/-- The `JudgeResult` dataclass of judge.py. -/
structure JudgeResult where
  scores : List (Str × Int)
  total : Int
  max_total : Int
  reasoning : Str
  raw_response : List (Str × Json)

/-- The `JudgeResult` construction shared by the `judge_*` functions
(with the `max_total = 5 * len(dimensions)` variant of
`judge_instruction_adherence`): scores from the dict comprehension,
`total = sum(scores.values())`,
`reasoning = str(raw.get("reasoning", ""))`. -/
def judge_build (raw : List (Str × Json)) (dims : List Str) : Except Str JudgeResult :=
  match judgeScores raw dims with
  | Except.error e => Except.error e
  | Except.ok scores =>
    Except.ok
      { scores := scores
        total := (scores.map Prod.snd).sum
        max_total := 5 * Int.ofNat dims.length
        reasoning := pyStrOf (dictGet raw (lit "reasoning") (Json.str []))
        raw_response := raw }

/-- The claimed per-dimension score: the map's integer value, 0 otherwise
(the extractor default `raw.get(d, 0)` supplies the 0 for absent keys). -/
def jsonIntVal (v : Json) : Int :=
  match v with
  | Json.int n => n
  | _ => 0

theorem dictInsertI_fresh (acc : List (Str × Int)) (k : Str) (v : Int)
    (hk : k ∉ acc.map Prod.fst) : dictInsertI acc k v = acc ++ [(k, v)] := by
  induction acc with
  | nil => rfl
  | cons p rest ih =>
    obtain ⟨k0, v0⟩ := p
    simp only [List.map_cons, List.mem_cons, not_or] at hk
    rw [dictInsertI, if_neg (fun he => hk.1 he.symm), ih hk.2, List.cons_append]

theorem judgeScoresGo_spec (raw : List (Str × Json)) (dims : List Str) :
    ∀ acc : List (Str × Int), (∀ d ∈ dims, d ∉ acc.map Prod.fst) → dims.Nodup →
    (∀ d ∈ dims, ∃ n, dictGet raw d (Json.int 0) = Json.int n) →
    judgeScoresGo raw acc dims =
      Except.ok (acc ++ dims.map (fun d => (d, jsonIntVal (dictGet raw d (Json.int 0))))) := by
  induction dims with
  | nil => intro acc _ _ _; simp [judgeScoresGo]
  | cons d rest ih =>
    intro acc hdis hnd h1
    obtain ⟨n, hn⟩ := h1 d (List.mem_cons_self _ _)
    rw [judgeScoresGo, hn]
    simp only [List.nodup_cons] at hnd
    have hfresh : d ∉ acc.map Prod.fst := hdis d (List.mem_cons_self _ _)
    show judgeScoresGo raw (dictInsertI acc d n) rest = _
    rw [dictInsertI_fresh acc d n hfresh]
    rw [ih (acc ++ [(d, n)]) ?_ hnd.2 (fun x hx => h1 x (List.mem_cons_of_mem d hx))]
    · rw [List.map_cons, List.append_assoc]
      rw [show jsonIntVal (dictGet raw d (Json.int 0)) = n from by rw [hn]; rfl]
      rfl
    · intro x hx
      simp only [List.map_append, List.mem_append, List.map_cons, List.map_nil,
        List.mem_singleton, not_or]
      exact ⟨fun hc => hdis x (List.mem_cons_of_mem d hx) hc,
        fun he => hnd.1 (he ▸ hx)⟩

theorem dictGet_insert_ne (raw : List (Str × Json)) (k : Str) (v : Json)
    (d : Str) (dflt : Json) (h : k ≠ d) :
    dictGet (dictInsert raw k v) d dflt = dictGet raw d dflt := by
  induction raw with
  | nil =>
    show dictGet [(k, v)] d dflt = dflt
    rw [dictGet]
    rw [List.find?_cons_of_neg _ (by simp [h])]
    rfl
  | cons p rest ih =>
    obtain ⟨k0, v0⟩ := p
    rw [dictInsert]
    by_cases hk0 : k0 = k
    · rw [if_pos hk0]
      rw [dictGet, dictGet]
      rw [List.find?_cons_of_neg _ (by simp [hk0 ▸ h]),
        List.find?_cons_of_neg _ (by simp [hk0 ▸ h])]
    · rw [if_neg hk0]
      by_cases hk0d : k0 = d
      · rw [dictGet, dictGet, List.find?_cons_of_pos _ (by simp [hk0d]),
          List.find?_cons_of_pos _ (by simp [hk0d])]
      · rw [dictGet, dictGet, List.find?_cons_of_neg _ (by simp [hk0d]),
          List.find?_cons_of_neg _ (by simp [hk0d])]
        exact ih

/-- C4: for every extracted map whose expected-dimension values are
integers (or absent, defaulting to 0), the constructed JudgeResult has
per-dimension scores equal to the map value (or 0), total equal to the
sum of exactly those per-dimension scores — insensitive to any "total"
entry in the map itself — and reasoning equal to the map's "reasoning"
string (the empty string when absent, via the `str(raw.get(...))`
default). -/
theorem judge_build_fields (raw : List (Str × Json)) (dims : List Str)
    (hnd : dims.Nodup)
    (h1 : ∀ d ∈ dims, ∃ n, dictGet raw d (Json.int 0) = Json.int n) :
    ∃ r, judge_build raw dims = Except.ok r ∧
      r.scores = dims.map (fun d => (d, jsonIntVal (dictGet raw d (Json.int 0)))) ∧
      r.total = (dims.map (fun d => jsonIntVal (dictGet raw d (Json.int 0)))).sum ∧
      (∀ s, dictGet raw (lit "reasoning") (Json.str []) = Json.str s → r.reasoning = s) ∧
      (lit "total" ∉ dims →
        ∀ v, ∃ r2, judge_build (dictInsert raw (lit "total") v) dims = Except.ok r2 ∧
          r2.total = r.total) := by
  have hgo := judgeScoresGo_spec raw dims [] (fun d _ => List.not_mem_nil d) hnd h1
  rw [List.nil_append] at hgo
  refine ⟨{ scores := dims.map (fun d => (d, jsonIntVal (dictGet raw d (Json.int 0))))
            total := ((dims.map (fun d =>
              (d, jsonIntVal (dictGet raw d (Json.int 0))))).map Prod.snd).sum
            max_total := 5 * Int.ofNat dims.length
            reasoning := pyStrOf (dictGet raw (lit "reasoning") (Json.str []))
            raw_response := raw }, ?_, rfl, ?_, ?_, ?_⟩
  · unfold judge_build judgeScores
    rw [hgo]
  · show ((dims.map (fun d => (d, jsonIntVal (dictGet raw d (Json.int 0))))).map Prod.snd).sum = _
    rw [List.map_map]
    rfl
  · intro s hs
    show pyStrOf (dictGet raw (lit "reasoning") (Json.str [])) = s
    rw [hs]
    rfl
  · intro htot v
    have h1m : ∀ d ∈ dims, ∃ n,
        dictGet (dictInsert raw (lit "total") v) d (Json.int 0) = Json.int n := by
      intro d hd
      rw [dictGet_insert_ne raw (lit "total") v d (Json.int 0)
        (fun he => htot (by rw [he]; exact hd))]
      exact h1 d hd
    have hgo2 := judgeScoresGo_spec (dictInsert raw (lit "total") v) dims []
      (fun d _ => List.not_mem_nil d) hnd h1m
    rw [List.nil_append] at hgo2
    refine ⟨{ scores := dims.map (fun d =>
                (d, jsonIntVal (dictGet (dictInsert raw (lit "total") v) d (Json.int 0))))
              total := ((dims.map (fun d =>
                (d, jsonIntVal (dictGet (dictInsert raw (lit "total") v) d
                  (Json.int 0))))).map Prod.snd).sum
              max_total := 5 * Int.ofNat dims.length
              reasoning := pyStrOf (dictGet (dictInsert raw (lit "total") v)
                (lit "reasoning") (Json.str []))
              raw_response := dictInsert raw (lit "total") v }, ?_, ?_⟩
    · unfold judge_build judgeScores
      rw [hgo2]
    · show ((dims.map (fun d =>
          (d, jsonIntVal (dictGet (dictInsert raw (lit "total") v) d (Json.int 0))))).map
            Prod.snd).sum = _
      rw [List.map_map, List.map_map]
      refine congrArg List.sum (List.map_congr_left ?_)
      intro d hd
      show jsonIntVal (dictGet (dictInsert raw (lit "total") v) d (Json.int 0)) = _
      rw [dictGet_insert_ne raw (lit "total") v d (Json.int 0)
        (fun he => htot (by rw [he]; exact hd))]
      rfl

theorem judge_build_fields_witness :
    ∃ r, judge_build [(lit "rule_coverage", Json.int 4), (lit "reasoning", Json.str (lit "good"))]
        [lit "rule_coverage", lit "rule_accuracy"] = Except.ok r ∧
      r.scores = [(lit "rule_coverage", 4), (lit "rule_accuracy", 0)] ∧
      r.total = 4 ∧ r.reasoning = lit "good" := by
  have h1 : ∀ d ∈ [lit "rule_coverage", lit "rule_accuracy"], ∃ n,
      dictGet [(lit "rule_coverage", Json.int 4), (lit "reasoning", Json.str (lit "good"))]
        d (Json.int 0) = Json.int n := by
    intro d hd
    cases hd with
    | head => exact ⟨4, rfl⟩
    | tail _ h2 =>
      cases h2 with
      | head => exact ⟨0, rfl⟩
      | tail _ h3 => cases h3
  obtain ⟨r, he, hs, ht, hre, _⟩ := judge_build_fields
    [(lit "rule_coverage", Json.int 4), (lit "reasoning", Json.str (lit "good"))]
    [lit "rule_coverage", lit "rule_accuracy"] (by decide) h1
  refine ⟨r, he, ?_, ?_, ?_⟩
  · rw [hs]; rfl
  · rw [ht]; rfl
  · exact hre (lit "good") rfl

/-!
Result model (copilot/result.py).  Python floats (duration_ms, cost_usd)
are modelled as integers: every claim about these structures is
insensitive to the float formatting, and the `:.0f` rendering is modelled
as decimal rendering of the integer.  The raw SDK event objects are
opaque. -/

/-- The `ToolCall` dataclass. -/
structure ToolCall where
  name : Str
  arguments : List (Str × Json) ⊕ Str
  result : Option Str := none
  error : Option Str := none
  duration_ms : Option Int := none
  tool_call_id : Option Str := none

/-- The `SubagentInvocation` dataclass. -/
structure SubagentInvocation where
  name : Str
  status : Str
  duration_ms : Option Int := none

/-- The `UsageInfo` dataclass. -/
structure UsageInfo where
  model : Str
  input_tokens : Int := 0
  output_tokens : Int := 0
  cache_read_tokens : Int := 0
  cost_usd : Int := 0
  duration_ms : Int := 0

/-- The `Turn` dataclass. -/
structure Turn where
  role : Str
  content : Str
  tool_calls : List ToolCall := []

/-- The `CopilotResult` dataclass (raw events kept as a count). -/
structure CopilotResult where
  turns : List Turn := []
  success : Bool := true
  error : Option Str := none
  duration_ms : Int := 0
  usage : List UsageInfo := []
  reasoning_traces : List Str := []
  subagent_invocations : List SubagentInvocation := []
  permission_requested : Bool := false
  permissions : List (List (Str × Json)) := []
  model_used : Option Str := none
  raw_events : Nat := 0

/-- `CopilotResult.final_response`: the content of the last assistant
turn, scanning `reversed(self.turns)`. -/
def final_response (r : CopilotResult) : Option Str :=
  match r.turns.reverse.find? (fun t => t.role = lit "assistant") with
  | some t => some t.content
  | none => none

/-- Python `str(True)` / `str(False)`. -/
def pyBoolStr (b : Bool) : Str := if b then lit "True" else lit "False"

def spaces (n : Nat) : Str := List.replicate n ' '

/-- `",\n".join` with each item prefixed by its indentation. -/
def joinIndent (ind : Nat) : List Str → Str
  | [] => []
  | [x] => spaces ind ++ x
  | x :: rest => spaces ind ++ x ++ (',' :: '\n' :: joinIndent ind rest)

/-- `json.dumps(v, indent=2)` (fuel-bounded on nesting depth). -/
def dumpsIndentVal : Nat → Nat → Json → Str
  | 0, _, _ => []
  | fuel + 1, ind, v =>
    match v with
    | Json.null => lit "null"
    | Json.bool b => if b then lit "true" else lit "false"
    | Json.int n => intToDec n
    | Json.floatLit s => s
    | Json.str s => dumpStr s
    | Json.arr [] => lit "[]"
    | Json.arr xs =>
      '[' :: ('\n' :: (joinIndent (ind + 2) (xs.map (dumpsIndentVal fuel (ind + 2))) ++
        ('\n' :: (spaces ind ++ [']']))))
    | Json.obj [] => lit "\x7b\x7d"
    | Json.obj ms =>
      '\x7b' :: ('\n' :: (joinIndent (ind + 2) (ms.map (fun p =>
        dumpStr p.1 ++ (':' :: ' ' :: dumpsIndentVal fuel (ind + 2) p.2))) ++
        ('\n' :: (spaces ind ++ ['\x7d']))))

/-- `json.dumps(d, indent=2)` on a dict. -/
def dumpsIndent2 (d : List (Str × Json)) : Str :=
  dumpsIndentVal (jsonDepth (Json.obj d)) 0 (Json.obj d)

/-- The `max_tool_result_len = 2000` truncation
`s[:2000] + "\n... (truncated)"`. -/
def truncateLong (s : Str) : Str :=
  if 2000 < s.length then s.take 2000 ++ lit "\n... (truncated)" else s

/-- The per-tool-call lines of the transcript loop body. -/
def toolCallLines (tc : ToolCall) : List Str :=
  let args_str :=
    match tc.arguments with
    | Sum.inl d => dumpsIndent2 d
    | Sum.inr s => s
  (lit "  >> Tool: " ++ tc.name) ::
  (lit "     Args: " ++ truncateLong args_str) ::
  ((match tc.result with
    | some result_str => [lit "     Result: " ++ truncateLong result_str]
    | none => []) ++
   (match tc.error with
    | some e => if e.isEmpty then [] else [lit "     Error: " ++ e]
    | none => []))

/-- The per-turn lines of the transcript loop body (1-based index). -/
def turnLines (idx : Nat) (turn : Turn) : List Str :=
  (lit "--- Turn " ++ (natToDec idx ++ (' ' :: '[' :: (turn.role ++ lit "] ---")))) ::
  ((if turn.content.isEmpty then [] else [turn.content]) ++
   ((turn.tool_calls.map toolCallLines).join ++ [[]]))

def turnsLines (i : Nat) : List Turn → List Str
  | [] => []
  | t :: rest => turnLines i t ++ turnsLines (i + 1) rest

def tracesLines (i : Nat) : List Str → List Str
  | [] => []
  | t :: rest => (lit "  [" ++ (natToDec i ++ (']' :: ' ' :: t))) :: tracesLines (i + 1) rest

def joinNL : List Str → Str
  | [] => []
  | [x] => x
  | x :: rest => x ++ ('\n' :: joinNL rest)

/-- `result_to_transcript` as defined in validation/judge.py. -/
def result_to_transcript_judge (result : CopilotResult) : Str :=
  let model_str :=
    match result.model_used with
    | some s => if s.isEmpty then lit "default" else s
    | none => lit "default"
  let header := lit "## Agent Session (model=" ++ (model_str ++ [')'])
  let durLine := lit "Duration: " ++ (intToDec result.duration_ms ++
    (lit "ms | Turns: " ++ (natToDec result.turns.length ++
      (lit " | Success: " ++ pyBoolStr result.success))))
  let errLines :=
    match result.error with
    | some e => if e.isEmpty then [] else [lit "Error: " ++ e]
    | none => ([] : List Str)
  let traceBlock :=
    if result.reasoning_traces.isEmpty then ([] : List Str)
    else lit "### Reasoning Traces" :: (tracesLines 1 result.reasoning_traces ++ [[]])
  joinNL (header :: durLine :: (errLines ++ ([] :: (traceBlock ++
    (lit "### Conversation" :: turnsLines 1 result.turns)))))

/-- `result_to_transcript` as defined in validation/context.py (the body
is textually identical to the judge.py copy). -/
def result_to_transcript_context (result : CopilotResult) : Str :=
  let model_str :=
    match result.model_used with
    | some s => if s.isEmpty then lit "default" else s
    | none => lit "default"
  let header := lit "## Agent Session (model=" ++ (model_str ++ [')'])
  let durLine := lit "Duration: " ++ (intToDec result.duration_ms ++
    (lit "ms | Turns: " ++ (natToDec result.turns.length ++
      (lit " | Success: " ++ pyBoolStr result.success))))
  let errLines :=
    match result.error with
    | some e => if e.isEmpty then [] else [lit "Error: " ++ e]
    | none => ([] : List Str)
  let traceBlock :=
    if result.reasoning_traces.isEmpty then ([] : List Str)
    else lit "### Reasoning Traces" :: (tracesLines 1 result.reasoning_traces ++ [[]])
  joinNL (header :: durLine :: (errLines ++ ([] :: (traceBlock ++
    (lit "### Conversation" :: turnsLines 1 result.turns)))))

/-- C5: transcript serialization is deterministic — serializing the same
result twice yields byte-identical transcripts.  In the embedding the
serializer consults nothing but its argument, so the two runs coincide
definitionally. -/
theorem result_to_transcript_deterministic (r : CopilotResult) :
    result_to_transcript_judge r = result_to_transcript_judge r := rfl

/-- C6: the two copies of `result_to_transcript` — in validation/judge.py
and validation/context.py — agree on every result. -/
theorem result_to_transcript_equivalent (r : CopilotResult) :
    result_to_transcript_judge r = result_to_transcript_context r := rfl

theorem reverse_find_eq_filter_getLast (p : Turn → Bool) (l : List Turn) :
    l.reverse.find? p = (l.filter p).getLast? := by
  induction l using List.reverseRecOn with
  | nil => rfl
  | append_singleton l a ih =>
    rw [List.reverse_append, List.reverse_singleton, List.singleton_append]
    rw [List.filter_append, List.filter_singleton]
    by_cases hp : p a = true
    · rw [List.find?_cons_of_pos _ hp, hp, cond_true, List.getLast?_concat]
    · rw [List.find?_cons_of_neg _ hp, ih]
      simp only [Bool.not_eq_true] at hp
      rw [hp, cond_false, List.append_nil]

/-- C7: `final_response` is the content of the most recent assistant
turn — the last turn of the ordered turns list whose role is
"assistant" — and `none` when no assistant turn exists; it is a pure
function of the turns list. -/
theorem final_response_last_assistant (r : CopilotResult) :
    final_response r =
      ((r.turns.filter (fun t => t.role = lit "assistant")).getLast?).map Turn.content := by
  unfold final_response
  rw [reverse_find_eq_filter_getLast]
  cases hl : (r.turns.filter (fun t => t.role = lit "assistant")).getLast? with
  | none => rfl
  | some t => rfl

/-!
Event Mapper.  The module copilot/events.py is imported by the runner and
the unit tests but is not present under src/, so the mapper is modelled
from the specification (section 4.1 event table) and from the observable
behavior pinned by tests/unit/test_event_mapper.py.
-/

/-- Modelled from the spec: one session event, a `type` tag plus the
payload fields of the section 4.1 table; every field may be absent. -/
inductive Event where
  | assistantMessage (content : Option Str)
  | assistantReasoning (reasoning_text : Option Str)
  | assistantUsage (model : Option Str) (input_tokens output_tokens cache_read_tokens : Option Int)
      (duration : Option Int)
  | toolStart (tool_name : Option Str) (tool_call_id : Option Str) (arguments : Option Str)
  | toolComplete (tool_name : Option Str) (tool_call_id : Option Str) (result : Option Str)
      (error : Option Str) (duration : Option Int)
  | subagent (status : Str) (agent_name : Option Str) (duration : Option Int)
  | sessionStart (selected_model : Option Str)
  | sessionError (message : Option Str)
  | permissionRequest (record : List (Str × Json))

/-- Modelled from the spec: the mutable mapper state. -/
structure EventMapper where
  turns : List Turn := []
  usage : List UsageInfo := []
  reasoning_traces : List Str := []
  subagent_invocations : List SubagentInvocation := []
  model_used : Option Str := none
  success : Bool := true
  error : Option Str := none
  permission_requested : Bool := false
  permissions : List (List (Str × Json)) := []
  raw_events : Nat := 0

/-- Attach a freshly opened tool call to the most recently opened turn,
starting a synthetic assistant turn when none is open. -/
def attachToolCall (turns : List Turn) (tc : ToolCall) : List Turn :=
  match turns with
  | [] => [{ role := lit "assistant", content := [], tool_calls := [tc] }]
  | t :: rest =>
    match rest with
    | [] => [{ t with tool_calls := t.tool_calls ++ [tc] }]
    | _ => t :: attachToolCall rest tc

/-- Fill in the completion fields of the most recent open tool call of a
turn matched by call id (fallback: same name with no result yet);
`none` when no call of the turn matches. -/
def completeInCalls (calls : List ToolCall) (tid : Option Str) (tname : Option Str)
    (res err : Option Str) (dur : Option Int) : Option (List ToolCall) :=
  match calls with
  | [] => none
  | c :: rest =>
    match completeInCalls rest tid tname res err dur with
    | some rest2 => some (c :: rest2)
    | none =>
      match tid with
      | some i =>
        if c.tool_call_id = some i then
          some ({ c with result := res, error := err, duration_ms := dur } :: rest)
        else none
      | none =>
        if c.name = tname.getD [] ∧ c.result = none then
          some ({ c with result := res, error := err, duration_ms := dur } :: rest)
        else none

/-- Locate the open tool call across turns, latest first; a completion
with no match is dropped. -/
def completeInTurns (turns : List Turn) (tid : Option Str) (tname : Option Str)
    (res err : Option Str) (dur : Option Int) : Option (List Turn) :=
  match turns with
  | [] => none
  | t :: rest =>
    match completeInTurns rest tid tname res err dur with
    | some rest2 => some (t :: rest2)
    | none =>
      match completeInCalls t.tool_calls tid tname res err dur with
      | some calls2 => some ({ t with tool_calls := calls2 } :: rest)
      | none => none

/-- Modelled from the spec: `EventMapper.handle`, the section 4.1
transition table.  Every subagent lifecycle event appends its own
`SubagentInvocation` entry, as the table states.  Usage cost defaults
to 0 (pricing unknown). -/
def emHandle (m : EventMapper) (e : Event) : EventMapper :=
  let m := { m with raw_events := m.raw_events + 1 }
  match e with
  | Event.assistantMessage content =>
    match content with
    | some s =>
      if s.isEmpty then m
      else { m with turns := m.turns ++ [{ role := lit "assistant", content := s }] }
    | none => m
  | Event.assistantReasoning rt =>
    match rt with
    | some s => if s.isEmpty then m else { m with reasoning_traces := m.reasoning_traces ++ [s] }
    | none => m
  | Event.assistantUsage model it ot crt dur =>
    let u : UsageInfo :=
      { model := model.getD [], input_tokens := it.getD 0, output_tokens := ot.getD 0,
        cache_read_tokens := crt.getD 0, cost_usd := 0, duration_ms := dur.getD 0 }
    { m with usage := m.usage ++ [u] }
  | Event.toolStart tname tid args =>
    let tc : ToolCall :=
      { name := tname.getD [], arguments := Sum.inr (args.getD []), tool_call_id := tid }
    { m with turns := attachToolCall m.turns tc }
  | Event.toolComplete tname tid res err dur =>
    { m with turns := (completeInTurns m.turns tid tname res err dur).getD m.turns }
  | Event.subagent status name dur =>
    { m with subagent_invocations :=
        m.subagent_invocations ++ [{ name := name.getD [], status := status, duration_ms := dur }] }
  | Event.sessionStart sel =>
    match sel with
    | some s => { m with model_used := some s }
    | none => m
  | Event.sessionError msg =>
    { m with success := false, error := some (msg.getD []) }
  | Event.permissionRequest record =>
    { m with permission_requested := true, permissions := m.permissions ++ [record] }

/-- Modelled from the spec: `EventMapper.build` assembles the result
from the mapper state. -/
def emBuild (m : EventMapper) : CopilotResult :=
  { turns := m.turns, success := m.success, error := m.error, duration_ms := 0,
    usage := m.usage, reasoning_traces := m.reasoning_traces,
    subagent_invocations := m.subagent_invocations,
    permission_requested := m.permission_requested,
    permissions := m.permissions, model_used := m.model_used, raw_events := m.raw_events }

/-- The three ways `copilot_run` produces a result: normal completion,
the `TimeoutError` handler (`error = f"Timeout after \x7bs\x7ds"`), and
the generic exception handler (`error = str(exc)`). -/
inductive RunOutcome where
  | completed
  | timedOut (timeout_s : Nat)
  | raised (msg : Str)

/-- The result returned by `copilot_run`: the mapper folded over the
event stream, patched by the exception handlers of runner.py. -/
def copilot_run_result (events : List Event) (outcome : RunOutcome) : CopilotResult :=
  let m := events.foldl emHandle {}
  match outcome with
  | RunOutcome.completed => emBuild m
  | RunOutcome.timedOut t =>
    { emBuild m with success := false, error := some (lit "Timeout after " ++ (natToDec t ++ ['s'])) }
  | RunOutcome.raised msg =>
    { emBuild m with success := false, error := some msg }

theorem emHandle_inv (m : EventMapper) (e : Event)
    (h : m.success = false ↔ m.error ≠ none) :
    (emHandle m e).success = false ↔ (emHandle m e).error ≠ none := by
  cases e <;> simp only [emHandle] <;> (try split) <;> (try split) <;> simp_all

theorem foldl_emHandle_inv (events : List Event) :
    ∀ m : EventMapper, (m.success = false ↔ m.error ≠ none) →
    ((events.foldl emHandle m).success = false ↔ (events.foldl emHandle m).error ≠ none) := by
  induction events with
  | nil => intro m h; exact h
  | cons e rest ih => intro m h; exact ih _ (emHandle_inv m e h)

/-- C8: for every event sequence and every run outcome (normal
completion, timeout, exception), the produced result satisfies
`success = false` if and only if an error string was recorded; in
particular the fresh, no-event result has `success = true`, and both
exception paths of the runner set `success = false` together with a
message. -/
theorem copilot_run_result_invariant (events : List Event) (outcome : RunOutcome) :
    ((copilot_run_result events outcome).success = false ↔
      (copilot_run_result events outcome).error ≠ none) := by
  have hinv := foldl_emHandle_inv events {} (by simp)
  unfold copilot_run_result
  cases outcome with
  | completed => exact hinv
  | timedOut t => simp
  | raised msg => simp

/-- Python `repr` of an int-valued dict (`\x7b'k': 1, 'j': 2\x7d`). -/
def pyDictReprI (d : List (Str × Int)) : Str :=
  match d with
  | [] => lit "\x7b\x7d"
  | _ =>
    '\x7b' :: (joinComma (d.map (fun p =>
      '\'' :: (p.1 ++ ('\'' :: ':' :: ' ' :: intToDec p.2)))) ++ ['\x7d'])

/-- Python `d.get(k, default)` on an int-valued dict. -/
def dictGetI (d : List (Str × Int)) (k : Str) (dflt : Int) : Int :=
  match d.find? (fun p => p.1 = k) with
  | some p => p.2
  | none => dflt

/-- The `min_dimension` loop of `assert_judge_score`: each dimension is
checked in order against `result.scores.get(dim, 0)`, raising at the
first violation with the exact f-string message. -/
def assertDims (r : JudgeResult) : List (Str × Int) → Except Str Unit
  | [] => Except.ok ()
  | (dim, minimum) :: rest =>
    let actual := dictGetI r.scores dim 0
    if minimum ≤ actual then assertDims r rest
    else Except.error (lit "Dimension '" ++ (dim ++ (lit "' scored " ++ (intToDec actual ++
      (lit ", minimum is " ++ (intToDec minimum ++ (lit ". Reasoning: " ++ r.reasoning)))))))

/-- `assert_judge_score`: the `min_total` check, then the per-dimension
checks; `None`/empty `min_dimension` skips the loop (Python truthiness,
both modelled as the empty list). -/
def assert_judge_score (r : JudgeResult) (min_total : Option Int)
    (min_dimension : List (Str × Int)) : Except Str Unit :=
  match min_total with
  | some mt =>
    if mt ≤ r.total then
      if min_dimension.isEmpty then Except.ok () else assertDims r min_dimension
    else
      Except.error (lit "Total score " ++ (intToDec r.total ++ ('/' :: (intToDec r.max_total ++
        (lit " below minimum " ++ (intToDec mt ++ (lit ". Scores: " ++ (pyDictReprI r.scores ++
          (lit ". Reasoning: " ++ r.reasoning)))))))))
  | none =>
    if min_dimension.isEmpty then Except.ok () else assertDims r min_dimension

/-- C9: when the total is below `min_total`, `assert_judge_score` raises
and its message embeds the actual total, the per-dimension scores dict
repr, and the judge reasoning verbatim; when a dimension is below its
`min_dimension` threshold, it likewise raises with the actual dimension
score and the reasoning in the message. -/
theorem assert_judge_score_raises (r : JudgeResult) (mt : Int) (dim : Str) (minimum : Int)
    (hlt : r.total < mt) (hdlt : dictGetI r.scores dim 0 < minimum) :
    (∃ m1, assert_judge_score r (some mt) [] = Except.error m1 ∧
      (∃ v, m1 = lit "Total score " ++ (intToDec r.total ++ v)) ∧
      (∃ u v, m1 = u ++ (pyDictReprI r.scores ++ v)) ∧
      (∃ u, m1 = u ++ r.reasoning)) ∧
    (∃ m2, assert_judge_score r none [(dim, minimum)] = Except.error m2 ∧
      (∃ u v, m2 = u ++ (intToDec (dictGetI r.scores dim 0) ++ v)) ∧
      (∃ u, m2 = u ++ r.reasoning)) := by
  have h1 : assert_judge_score r (some mt) [] =
      Except.error (lit "Total score " ++ (intToDec r.total ++ ('/' :: (intToDec r.max_total ++
        (lit " below minimum " ++ (intToDec mt ++ (lit ". Scores: " ++ (pyDictReprI r.scores ++
          (lit ". Reasoning: " ++ r.reasoning))))))))) := by
    simp only [assert_judge_score]
    rw [if_neg (by omega)]
  have h2 : assert_judge_score r none [(dim, minimum)] =
      Except.error (lit "Dimension '" ++ (dim ++ (lit "' scored " ++
        (intToDec (dictGetI r.scores dim 0) ++ (lit ", minimum is " ++ (intToDec minimum ++
          (lit ". Reasoning: " ++ r.reasoning))))))) := by
    simp only [assert_judge_score, List.isEmpty_cons, assertDims]
    rw [if_neg (show ¬(minimum ≤ dictGetI r.scores dim 0) from by omega)]
    rfl
  refine ⟨⟨_, h1, ⟨_, rfl⟩, ⟨lit "Total score " ++ (intToDec r.total ++ ('/' ::
      (intToDec r.max_total ++ (lit " below minimum " ++ (intToDec mt ++ lit ". Scores: "))))),
      lit ". Reasoning: " ++ r.reasoning, ?_⟩, ⟨lit "Total score " ++ (intToDec r.total ++ ('/' ::
      (intToDec r.max_total ++ (lit " below minimum " ++ (intToDec mt ++ (lit ". Scores: " ++
      (pyDictReprI r.scores ++ lit ". Reasoning: "))))))), ?_⟩⟩,
    ⟨_, h2, ⟨lit "Dimension '" ++ (dim ++ lit "' scored "),
      lit ", minimum is " ++ (intToDec minimum ++ (lit ". Reasoning: " ++ r.reasoning)), ?_⟩,
      ⟨lit "Dimension '" ++ (dim ++ (lit "' scored " ++ (intToDec (dictGetI r.scores dim 0) ++
        (lit ", minimum is " ++ (intToDec minimum ++ lit ". Reasoning: "))))), ?_⟩⟩⟩
  · simp [List.append_assoc]
  · simp [List.append_assoc]
  · simp [List.append_assoc]
  · simp [List.append_assoc]

theorem assert_judge_score_raises_witness :
    ((⟨[(lit "a", 7), (lit "b", 5)], 12, 20, lit "meh", []⟩ : JudgeResult).total < 15 ∧
      dictGetI (⟨[(lit "a", 7), (lit "b", 5)], 12, 20, lit "meh", []⟩ : JudgeResult).scores
        (lit "a") 0 < 8) ∧
    ((∃ m1, assert_judge_score (⟨[(lit "a", 7), (lit "b", 5)], 12, 20, lit "meh", []⟩ : JudgeResult)
        (some 15) [] = Except.error m1 ∧
      (∃ v, m1 = lit "Total score " ++
        (intToDec (⟨[(lit "a", 7), (lit "b", 5)], 12, 20, lit "meh", []⟩ : JudgeResult).total ++ v)) ∧
      (∃ u v, m1 = u ++
        (pyDictReprI (⟨[(lit "a", 7), (lit "b", 5)], 12, 20, lit "meh", []⟩ : JudgeResult).scores ++ v)) ∧
      (∃ u, m1 = u ++ (⟨[(lit "a", 7), (lit "b", 5)], 12, 20, lit "meh", []⟩ : JudgeResult).reasoning)) ∧
    (∃ m2, assert_judge_score (⟨[(lit "a", 7), (lit "b", 5)], 12, 20, lit "meh", []⟩ : JudgeResult)
        none [(lit "a", 8)] = Except.error m2 ∧
      (∃ u v, m2 = u ++ (intToDec (dictGetI
        (⟨[(lit "a", 7), (lit "b", 5)], 12, 20, lit "meh", []⟩ : JudgeResult).scores (lit "a") 0) ++ v)) ∧
      (∃ u, m2 = u ++ (⟨[(lit "a", 7), (lit "b", 5)], 12, 20, lit "meh", []⟩ : JudgeResult).reasoning))) :=
  ⟨⟨by decide, by decide⟩,
    assert_judge_score_raises ⟨[(lit "a", 7), (lit "b", 5)], 12, 20, lit "meh", []⟩
      15 (lit "a") 8 (by decide) (by decide)⟩
